import Mathlib

/-!
Verification development for the trading_platform market-data feed handler.

This file gives a shallow embedding of the Python source (src/models.py,
src/tick_buffer.py, src/base_handler.py, src/handlers/*.py) in Lean 4 and
proves properties of the embedded definitions.  Machine integers in the
source are Python arbitrary-precision ints, so they are modelled as
Nat/Int; Python `None` becomes `Option.none`; Python dicts keyed by
strings become association lists.
-/

/- ===================== models.py ===================== -/

/-- Embeds models.TickType (models.py:11-14). -/
inductive TickType where
  | TRADE
  | QUOTE
  | BBO
deriving DecidableEq, Repr

/-- Embeds models.Vendor (models.py:17-22). -/
inductive Vendor where
  | DATABENTO
  | BLOOMBERG
  | CME
  | ICE
  | REFINITIV
deriving DecidableEq, Repr

/-- Embeds models.Tick (models.py:25-53), the frozen dataclass.  Only the
data fields are modelled; the conversion helpers are not needed here. -/
structure Tick where
  timestamp_ns : Int
  symbol : String
  tick_type : TickType
  bid_price : Option Int := none
  ask_price : Option Int := none
  trade_price : Option Int := none
  bid_size : Option Int := none
  ask_size : Option Int := none
  trade_size : Option Int := none
  exchange : Option String := none
  vendor : Option Vendor := none
  sequence_num : Option Int := none
  price_precision : Nat := 2
deriving DecidableEq, Repr

/-- The tick invariant stated in spec section 3: at least one price is
present, and a BBO tick carries both bid and ask. -/
def tickInvariant (t : Tick) : Prop :=
  (t.bid_price.isSome ∨ t.ask_price.isSome ∨ t.trade_price.isSome) ∧
    (t.tick_type = TickType.BBO → t.bid_price.isSome ∧ t.ask_price.isSome)

instance (t : Tick) : Decidable (tickInvariant t) := by
  unfold tickInvariant; infer_instance

/- ===================== tick_buffer.py : RingBuffer ===================== -/

/-- Python `int.bit_length` for a nonnegative argument, with explicit fuel
so that it is structurally recursive (the fuel `n` is always enough since
halving reaches 0 within `n` steps). -/
def bitLenAux : Nat → Nat → Nat
  | 0, _ => 0
  | fuel + 1, n => if n = 0 then 0 else bitLenAux fuel (n / 2) + 1

/-- Python `n.bit_length()` for `n ≥ 0`. -/
def bitLength (n : Nat) : Nat := bitLenAux n n

/-- Embeds tick_buffer.RingBuffer state (tick_buffer.py:25-51): capacity,
pre-allocated slot list, and the two indices.  The `_mask` field is
recomputed (`capacity - 1`) instead of stored. -/
structure RingBuffer where
  capacity : Nat
  buffer : List (Option Tick)
  write_idx : Nat
  read_idx : Nat
deriving DecidableEq, Repr

/-- Embeds RingBuffer.__init__ (tick_buffer.py:35-51):
`self._capacity = 1 << (capacity - 1).bit_length()`, slots all `None`,
both indices 0.  (Defined for requested capacity ≥ 1, as in the spec.) -/
def RingBuffer.init (capacity : Nat) : RingBuffer :=
  { capacity := 1 <<< bitLength (capacity - 1)
    buffer := List.replicate (1 <<< bitLength (capacity - 1)) none
    write_idx := 0
    read_idx := 0 }

/-- The `_mask` attribute (tick_buffer.py:44). -/
def RingBuffer.mask (rb : RingBuffer) : Nat := rb.capacity - 1

/-- Embeds RingBuffer.size (tick_buffer.py:53-56):
`(write_idx - read_idx) & mask`.  Python `&` of a possibly negative int
with `2^k - 1` is reduction mod `2^k`, so it is modelled as Int emod
(which is nonnegative for a positive modulus, like Python `%`). -/
def RingBuffer.size (rb : RingBuffer) : Nat :=
  (((rb.write_idx : Int) - (rb.read_idx : Int)) % (rb.capacity : Int)).toNat

/-- Embeds RingBuffer.is_full (tick_buffer.py:58-60). -/
def RingBuffer.isFull (rb : RingBuffer) : Bool :=
  rb.size = rb.capacity - 1

/-- Embeds RingBuffer.is_empty (tick_buffer.py:62-64). -/
def RingBuffer.isEmpty (rb : RingBuffer) : Bool :=
  rb.write_idx = rb.read_idx

/-- Embeds RingBuffer.push (tick_buffer.py:66-80).  Returns the new state
and the Python return value. -/
def RingBuffer.push (rb : RingBuffer) (tick : Tick) : RingBuffer × Bool :=
  let next_write := (rb.write_idx + 1) &&& rb.mask
  if next_write = rb.read_idx then
    (rb, false)  -- Buffer full
  else
    ({ rb with
        buffer := rb.buffer.set rb.write_idx (some tick)
        write_idx := next_write },
     true)

/-- Embeds RingBuffer.pop (tick_buffer.py:82-95).  Returns the new state
and the Python return value (the stored slot value). -/
def RingBuffer.pop (rb : RingBuffer) : RingBuffer × Option Tick :=
  if rb.read_idx = rb.write_idx then
    (rb, none)  -- Buffer empty
  else
    let tick := rb.buffer.getD rb.read_idx none
    ({ rb with
        buffer := rb.buffer.set rb.read_idx none
        read_idx := (rb.read_idx + 1) &&& rb.mask },
     tick)

/-- The loop body of RingBuffer.pop_batch (tick_buffer.py:107-110),
iterated `count` times: pop, append when non-None. -/
def RingBuffer.popLoop : RingBuffer → Nat → RingBuffer × List Tick
  | rb, 0 => (rb, [])
  | rb, count + 1 =>
    let (rb', t?) := rb.pop
    let (rb'', rest) := rb'.popLoop count
    match t? with
    | some t => (rb'', t :: rest)
    | none => (rb'', rest)

/-- Embeds RingBuffer.pop_batch (tick_buffer.py:97-112):
`count = min(max_size, size)` pops, collecting non-None results. -/
def RingBuffer.popBatch (rb : RingBuffer) (max_size : Nat) :
    RingBuffer × List Tick :=
  rb.popLoop (min max_size rb.size)

/-- Iterated push: push the ticks of a list in order, recording each
boolean result (used to state the K-pushes-then-K-pops property). -/
def RingBuffer.pushAll : RingBuffer → List Tick → RingBuffer × List Bool
  | rb, [] => (rb, [])
  | rb, t :: ts =>
    let (rb', ok) := rb.push t
    let (rb'', oks) := rb'.pushAll ts
    (rb'', ok :: oks)

/-- Iterated pop: pop `k` times, recording each returned value. -/
def RingBuffer.popN : RingBuffer → Nat → RingBuffer × List (Option Tick)
  | rb, 0 => (rb, [])
  | rb, k + 1 =>
    let (rb', t?) := rb.pop
    let (rb'', rest) := rb'.popN k
    (rb'', t? :: rest)

/- ===================== tick_buffer.py : TickBuffer ===================== -/

/-- Embeds tick_buffer.BufferStats (tick_buffer.py:14-22).  The two
latency fields are omitted: they depend on the wall clock
(`current_time_ns`) and float arithmetic and no claim mentions them. -/
structure BufferStats where
  ticks_received : Nat := 0
  ticks_processed : Nat := 0
  ticks_dropped : Nat := 0
  batches_flushed : Nat := 0
deriving DecidableEq, Repr

/-- Embeds tick_buffer.TickBuffer state (tick_buffer.py:126-150): the
wrapped ring buffer, the batch size and the counters.  The flush timer,
callback and clock fields carry no state relevant to the claims. -/
structure TickBuffer where
  batch_size : Nat
  buffer : RingBuffer
  stats : BufferStats
deriving DecidableEq, Repr

/-- Embeds TickBuffer.__init__ (tick_buffer.py:126-150). -/
def TickBuffer.init (batch_size buffer_capacity : Nat) : TickBuffer :=
  { batch_size := batch_size
    buffer := RingBuffer.init buffer_capacity
    stats := {} }

/-- Embeds TickBuffer._flush (tick_buffer.py:206-229).  Returns the new
state and the batch delivered to the `on_batch` callback (empty when the
early return on an empty batch fires). -/
def TickBuffer.flush (tb : TickBuffer) : TickBuffer × List Tick :=
  let (rb', batch) := tb.buffer.popBatch tb.batch_size
  if batch.isEmpty then
    ({ tb with buffer := rb' }, [])
  else
    ({ tb with
        buffer := rb'
        stats := { tb.stats with
          ticks_processed := tb.stats.ticks_processed + batch.length
          batches_flushed := tb.stats.batches_flushed + 1 } },
     batch)

/-- Embeds TickBuffer.push (tick_buffer.py:175-192).  Returns the new
state, the Python return value, and the batch delivered if the
size-triggered immediate flush fired (empty list otherwise). -/
def TickBuffer.push (tb : TickBuffer) (tick : Tick) :
    TickBuffer × Bool × List Tick :=
  let tb := { tb with
    stats := { tb.stats with ticks_received := tb.stats.ticks_received + 1 } }
  let (rb', ok) := tb.buffer.push tick
  if !ok then
    ({ tb with
        stats := { tb.stats with
          ticks_dropped := tb.stats.ticks_dropped + 1 } },
     false, [])
  else
    let tb := { tb with buffer := rb' }
    if tb.batch_size ≤ tb.buffer.size then
      let (tb', batch) := tb.flush
      (tb', true, batch)
    else
      (tb, true, [])

/-- An observable operation on the batcher: a push from the producer or a
flush (timer-triggered or final). -/
inductive BufOp where
  | push (t : Tick)
  | flush
deriving Repr

/-- One observable operation applied to the batcher state. -/
def TickBuffer.step (tb : TickBuffer) (op : BufOp) : TickBuffer :=
  match op with
  | BufOp.push t => (tb.push t).1
  | BufOp.flush => tb.flush.1

/-- A sequence of observable operations applied to the batcher state. -/
def TickBuffer.run (tb : TickBuffer) : List BufOp → TickBuffer
  | [] => tb
  | op :: ops => (tb.step op).run ops

/- ===================== tick_buffer.py : TickAggregator ===================== -/

/-- Embeds TickAggregator.Bar (tick_buffer.py:242-253).  The Python field
`open` is a Lean keyword and is renamed `open_price`. -/
structure AggBar where
  timestamp_ns : Int
  symbol : String
  open_price : Int
  high : Int
  low : Int
  close : Int
  volume : Int := 0
  tick_count : Nat := 0
  precision : Nat := 2
deriving DecidableEq, Repr

/-- Lookup in the per-symbol bar dict `self._bars` (association list). -/
def aggGet (bars : List (String × AggBar)) (s : String) : Option AggBar :=
  (bars.find? (fun p => p.1 == s)).map (fun p => p.2)

/-- Assignment `self._bars[symbol] = bar` on the association list: replace
the existing binding in place, else append (Python dict semantics). -/
def aggSet (bars : List (String × AggBar)) (s : String) (b : AggBar) :
    List (String × AggBar) :=
  match bars with
  | [] => [(s, b)]
  | (k, v) :: rest =>
    if k == s then (k, b) :: rest else (k, v) :: aggSet rest s b

/-- Embeds TickAggregator state (tick_buffer.py:255-264). -/
structure TickAggregator where
  timeframe_ns : Int
  bars : List (String × AggBar)
deriving DecidableEq, Repr

/-- Embeds TickAggregator.__init__ (tick_buffer.py:255-264):
`timeframe_ns = timeframe_seconds * 1_000_000_000`, empty bar dict. -/
def TickAggregator.init (timeframe_seconds : Int) : TickAggregator :=
  { timeframe_ns := timeframe_seconds * 1000000000, bars := [] }

/-- Embeds TickAggregator._get_bar_timestamp (tick_buffer.py:266-268):
`(tick_time_ns // timeframe_ns) * timeframe_ns`.  Python `//` is floor
division, i.e. `Int.fdiv`. -/
def TickAggregator.getBarTimestamp (agg : TickAggregator)
    (tick_time_ns : Int) : Int :=
  (Int.fdiv tick_time_ns agg.timeframe_ns) * agg.timeframe_ns

/-- Python truthiness-based `or` on optional ints: `a or b` yields `a`
when `a` is a nonzero number, else `b` (both `None` and `0` are falsy). -/
def pyOrInt (a b : Option Int) : Option Int :=
  match a with
  | some v => if v = 0 then b else some v
  | none => b

/-- The price selection of TickAggregator.process_tick (tick_buffer.py:281):
`tick.trade_price or tick.bid_price or tick.ask_price`. -/
def tickPrice (t : Tick) : Option Int :=
  pyOrInt (pyOrInt t.trade_price t.bid_price) t.ask_price

/-- The size selection of TickAggregator.process_tick (tick_buffer.py:285):
`tick.trade_size or 0` with Python truthiness. -/
def tickSize (t : Tick) : Int :=
  match t.trade_size with
  | some v => if v = 0 then 0 else v
  | none => 0

/-- Embeds TickAggregator.process_tick (tick_buffer.py:270-333).  Returns
the new state and the Python return value (the completed bar, which is
exactly what is passed to the `on_bar` callback when set). -/
def TickAggregator.processTick (agg : TickAggregator) (tick : Tick) :
    TickAggregator × Option AggBar :=
  let bar_ts := agg.getBarTimestamp tick.timestamp_ns
  let symbol := tick.symbol
  match tickPrice tick with
  | none => (agg, none)
  | some price =>
    let size := tickSize tick
    let freshBar : AggBar :=
      { timestamp_ns := bar_ts
        symbol := symbol
        open_price := price
        high := price
        low := price
        close := price
        volume := size
        tick_count := 1
        precision := tick.price_precision }
    match aggGet agg.bars symbol with
    | some current_bar =>
      if bar_ts > current_bar.timestamp_ns then
        -- Bar completed; start new bar
        ({ agg with bars := aggSet agg.bars symbol freshBar },
         some current_bar)
      else
        -- Update current bar
        let updated : AggBar :=
          { current_bar with
            high := max current_bar.high price
            low := min current_bar.low price
            close := price
            volume := current_bar.volume + size
            tick_count := current_bar.tick_count + 1 }
        ({ agg with bars := aggSet agg.bars symbol updated }, none)
    | none =>
      -- First tick for this symbol
      ({ agg with bars := aggSet agg.bars symbol freshBar }, none)

/- ===================== generic Python dict / list helpers ===================== -/

/-- Python dict assignment `m[k] = v` on an association list: replace the
existing binding in place, else append. -/
def pyDictSet {α : Type} (m : List (String × α)) (k : String) (v : α) :
    List (String × α) :=
  match m with
  | [] => [(k, v)]
  | (k', v') :: rest =>
    if k' == k then (k', v) :: rest else (k', v') :: pyDictSet rest k v

/-- Python dict lookup `m.get(k)`. -/
def pyDictGet {α : Type} (m : List (String × α)) (k : String) : Option α :=
  (m.find? (fun p => p.1 == k)).map (fun p => p.2)

/-- Python `del m[k]` (keys are unique by construction, so removing the
first binding removes the key). -/
def pyDictDel {α : Type} : List (String × α) → String → List (String × α)
  | [], _ => []
  | (k', v') :: rest, k =>
    if k' == k then rest else (k', v') :: pyDictDel rest k

/-- Python `list.remove(s)`: drop the first occurrence. -/
def pyListRemove : List String → String → List String
  | [], _ => []
  | x :: xs, s => if x == s then xs else x :: pyListRemove xs s

/-- Truncation toward zero, Python `int(q)` on a rational value. -/
def pyInt (q : ℚ) : Int := Int.tdiv q.num (q.den : Int)

/- ===================== models.py : FeedStats ===================== -/

/-- Embeds models.FeedStats (models.py:95-104).  The EWMA field
`latency_ns_avg` is kept but its float-based update is not modelled (no
claim touches it). -/
structure FeedStats where
  vendor : Vendor
  symbol : String
  ticks_received : Nat := 0
  last_tick_time_ns : Int := 0
  gaps_detected : Nat := 0
  last_sequence : Int := 0
  latency_ns_avg : Int := 0
deriving DecidableEq, Repr

/- ============== handlers/databento_handler.py : _parse_message ============== -/

/-- A Databento JSON message as consumed by
DatabentoHandler._parse_message (databento_handler.py:163-216).  Each
field is `none` when the key is absent from the dict. -/
structure DbMsg where
  msg_type : Option String := none
  symbol : Option String := none
  ts_event : Option Int := none
  bid_px : Option ℚ := none
  ask_px : Option ℚ := none
  trade_px : Option ℚ := none
  bid_sz : Option Int := none
  ask_sz : Option Int := none
  trade_sz : Option Int := none
  exchange : Option String := none
  sequence : Option Int := none
deriving DecidableEq, Repr

/-- Embeds DatabentoHandler._parse_message (databento_handler.py:163-216).
`msg.get("type", "mbp")`; heartbeats yield None; prices are scaled by
`10 ** 2` and truncated with `int(...)`; presence is key-presence
(`"bid_px" in msg`). -/
def DatabentoHandler.parseMessage (msg : DbMsg) (receive_time : Int) :
    Option Tick :=
  let msg_type := msg.msg_type.getD "mbp"
  if msg_type = "heartbeat" then
    none
  else
    let symbol := msg.symbol.getD ""
    let timestamp := msg.ts_event.getD receive_time
    let tick_type :=
      if msg.trade_px.isSome then TickType.TRADE
      else if msg.bid_px.isSome && msg.ask_px.isSome then TickType.BBO
      else TickType.QUOTE
    let multiplier : ℚ := 100
    some
      { timestamp_ns := timestamp
        symbol := symbol
        tick_type := tick_type
        bid_price := msg.bid_px.map (fun q => pyInt (q * multiplier))
        ask_price := msg.ask_px.map (fun q => pyInt (q * multiplier))
        trade_price := msg.trade_px.map (fun q => pyInt (q * multiplier))
        bid_size := msg.bid_sz
        ask_size := msg.ask_sz
        trade_size := msg.trade_sz
        exchange := msg.exchange
        vendor := some Vendor.DATABENTO
        sequence_num := msg.sequence
        price_precision := 2 }

/- ============== handlers/bloomberg_handler.py : _parse_event ============== -/

/-- A Bloomberg event dict as consumed by BloombergHandler._parse_event
(bloomberg_handler.py:193-228).  `none` covers both an absent key and a
null value (the code reads every field with `event.get`). -/
structure BbEvent where
  event_type : Option String := none
  symbol : Option String := none
  bid : Option ℚ := none
  ask : Option ℚ := none
  last : Option ℚ := none
  bid_size : Option Int := none
  ask_size : Option Int := none
deriving DecidableEq, Repr

/-- The price conversion `int(x * multiplier) if x else None` used by
BloombergHandler._parse_event: Python truthiness maps both None and 0.0
to None. -/
def pyPriceIfTruthy (x : Option ℚ) (multiplier : ℚ) : Option Int :=
  match x with
  | some v => if v = 0 then none else some (pyInt (v * multiplier))
  | none => none

/-- Embeds BloombergHandler._parse_event (bloomberg_handler.py:193-228).
The guard `if not event or event.get("type") != "SUBSCRIPTION_DATA"` is
covered by the type check alone: a falsy (empty) dict has no "type" key.
`timestamp` is the wall-clock value `current_time_ns()`, passed in. -/
def BloombergHandler.parseEvent (event : BbEvent) (timestamp : Int) :
    Option Tick :=
  if event.event_type ≠ some "SUBSCRIPTION_DATA" then
    none
  else
    let multiplier : ℚ := 10000
    let tick_type :=
      if event.last.isSome then TickType.TRADE
      else if event.bid.isSome && event.ask.isSome then TickType.BBO
      else TickType.QUOTE
    some
      { timestamp_ns := timestamp
        symbol := event.symbol.getD ""
        tick_type := tick_type
        bid_price := pyPriceIfTruthy event.bid multiplier
        ask_price := pyPriceIfTruthy event.ask multiplier
        trade_price := pyPriceIfTruthy event.last multiplier
        bid_size := event.bid_size
        ask_size := event.ask_size
        vendor := some Vendor.BLOOMBERG
        price_precision := 4 }

/- ============== handlers/cme_handler.py : parse_packet ============== -/

/-- Little-endian unsigned integer read of a byte list (first byte least
significant), as struct.unpack does for "<I", "<Q", "<H". -/
def readLE (bs : List Nat) : Nat :=
  bs.foldr (fun b acc => b + 256 * acc) 0

/-- struct.unpack "<q": 8-byte little-endian two's-complement signed. -/
def readLEq (bs : List Nat) : Int :=
  let v := readLE bs
  if v < 2 ^ 63 then (v : Int) else (v : Int) - 2 ^ 64

/-- Python slice `data[a:b]`. -/
def pySlice (data : List Nat) (a b : Nat) : List Nat :=
  (data.take b).drop a

/-- The sequence-tracking state of CMEHandler (cme_handler.py:92-97):
`_expected_seq`, `_gaps`, and the security-id → symbol map. -/
structure CMEState where
  expected_seq : Nat := 0
  gaps : List (Nat × Nat) := []
  security_map : List (Nat × String) := []
deriving DecidableEq, Repr

/-- Embeds CMEHandler._parse_incremental_refresh
(cme_handler.py:231-300).  Entry types: 48 = ord '0' bid, 49 = ord '1'
offer, 50 = ord '2' trade.  The symbol falls back to `"SEC_<id>"`. -/
def CMEHandler.parseIncrementalRefresh (security_map : List (Nat × String))
    (data : List Nat) (timestamp : Int) : List Tick :=
  if data.length < 20 then
    []
  else
    let entry_type := data.getD 0 0
    let security_id := readLE (pySlice data 1 5)
    let price_mantissa := readLEq (pySlice data 5 13)
    let sz := readLE (pySlice data 13 17)
    let symbol :=
      match security_map.find? (fun p => p.1 == security_id) with
      | some p => p.2
      | none => "SEC_" ++ toString security_id
    let price := price_mantissa
    if entry_type = 48 then
      [{ timestamp_ns := timestamp
         symbol := symbol
         tick_type := TickType.QUOTE
         bid_price := some price
         bid_size := some (sz : Int)
         vendor := some Vendor.CME
         price_precision := 7 }]
    else if entry_type = 49 then
      [{ timestamp_ns := timestamp
         symbol := symbol
         tick_type := TickType.QUOTE
         ask_price := some price
         ask_size := some (sz : Int)
         vendor := some Vendor.CME
         price_precision := 7 }]
    else if entry_type = 50 then
      [{ timestamp_ns := timestamp
         symbol := symbol
         tick_type := TickType.TRADE
         trade_price := some price
         trade_size := some (sz : Int)
         vendor := some Vendor.CME
         price_precision := 7 }]
    else
      []

/-- The message `while` loop of CMEHandler.parse_packet
(cme_handler.py:211-227), with fuel for termination (each step advances
`offset` by `msg_size ≥ 1`, so `data.length + 1` fuel suffices). -/
def CMEHandler.parseMessages (security_map : List (Nat × String))
    (data : List Nat) (sending_time : Int) :
    Nat → Nat → List Tick
  | 0, _ => []
  | fuel + 1, offset =>
    if offset + 10 ≤ data.length then
      let msg_size := readLE (pySlice data offset (offset + 2))
      let template_id := readLE (pySlice data (offset + 4) (offset + 6))
      if msg_size = 0 then
        []
      else
        let msg_data := pySlice data (offset + 10) (offset + msg_size)
        let ticks :=
          if template_id = 32 then
            CMEHandler.parseIncrementalRefresh security_map msg_data
              sending_time
          else []
        ticks ++
          CMEHandler.parseMessages security_map data sending_time fuel
            (offset + msg_size)
    else []

/-- Embeds CMEHandler.parse_packet (cme_handler.py:184-229): 12-byte
header check, "<IQ" header decode, gap detection, then the message
loop. -/
def CMEHandler.parsePacket (st : CMEState) (data : List Nat) :
    CMEState × List Tick :=
  if data.length < 12 then
    (st, [])
  else
    let seq_num := readLE (pySlice data 0 4)
    let sending_time := readLE (pySlice data 4 12)
    let gaps' :=
      if st.expected_seq > 0 ∧ seq_num ≠ st.expected_seq then
        if seq_num > st.expected_seq then
          st.gaps ++ [(st.expected_seq, seq_num - 1)]
        else st.gaps
      else st.gaps
    let st' := { st with gaps := gaps', expected_seq := seq_num + 1 }
    (st',
     CMEHandler.parseMessages st.security_map data (sending_time : Int)
       (data.length + 1) 12)

/-- Number of recorded gaps (`gaps_detected` in spec scenario 6). -/
def CMEState.gapsDetected (st : CMEState) : Nat := st.gaps.length

/-- Fold of parse_packet over a list of delivered packets. -/
def CMEHandler.parsePackets (st : CMEState) : List (List Nat) → CMEState × List (List Tick)
  | [] => (st, [])
  | p :: ps =>
    let (st', ts) := CMEHandler.parsePacket st p
    let (st'', rest) := CMEHandler.parsePackets st' ps
    (st'', ts :: rest)

/- ============== subscription state (databento / cme handlers) ============== -/

/-- The subscription-related state shared by FeedHandler subclasses:
`_subscriptions` (a Python list, base_handler.py:42) and the per-symbol
`_stats` dict (base_handler.py:39). -/
structure SubState where
  subscriptions : List String := []
  stats : List (String × FeedStats) := []
deriving DecidableEq, Repr

/-- Embeds DatabentoHandler.subscribe (databento_handler.py:83-98):
extend `_subscriptions`, then assign a fresh FeedStats per symbol.  The
network frame it sends is not state. -/
def DatabentoHandler.subscribe (st : SubState) (symbols : List String) :
    SubState :=
  { subscriptions := st.subscriptions ++ symbols
    stats := symbols.foldl
      (fun m s => pyDictSet m s { vendor := Vendor.DATABENTO, symbol := s })
      st.stats }

/-- Embeds DatabentoHandler.unsubscribe (databento_handler.py:100-110):
remove each symbol from `_subscriptions` if present (first occurrence,
Python `list.remove`); `_stats` is not touched. -/
def DatabentoHandler.unsubscribe (st : SubState) (symbols : List String) :
    SubState :=
  { st with subscriptions :=
      (symbols.foldl (fun l s => if s ∈ l then pyListRemove l s else l)
        st.subscriptions) }

/-- The CME handler's subscription state: `_subscriptions`, `_stats`, and
the per-symbol `_books` dict (cme_handler.py:92-100).  A book value is
the fresh `{'bids': {}, 'asks': {}}` pair of empty dicts, constant here
(nothing in the source ever mutates it), modelled as `Unit`. -/
structure CMESubState where
  subscriptions : List String := []
  stats : List (String × FeedStats) := []
  books : List (String × Unit) := []
deriving DecidableEq, Repr

/-- Embeds CMEHandler.subscribe (cme_handler.py:142-153). -/
def CMEHandler.subscribe (st : CMESubState) (symbols : List String) :
    CMESubState :=
  { subscriptions := st.subscriptions ++ symbols
    stats := symbols.foldl
      (fun m s => pyDictSet m s { vendor := Vendor.CME, symbol := s })
      st.stats
    books := symbols.foldl (fun m s => pyDictSet m s ()) st.books }

/-- Embeds CMEHandler.unsubscribe (cme_handler.py:155-161): per symbol,
remove from `_subscriptions` if present and `del _books[symbol]` if
present. -/
def CMEHandler.unsubscribe (st : CMESubState) (symbols : List String) :
    CMESubState :=
  symbols.foldl
    (fun st s =>
      { st with
        subscriptions :=
          if s ∈ st.subscriptions then pyListRemove st.subscriptions s
          else st.subscriptions
        books :=
          if (st.books.find? (fun p => p.1 == s)).isSome then
            pyDictDel st.books s
          else st.books })
    st

/-- A subscription-interface call, for stating reachability ("a symbol
never in the subscription set"). -/
inductive SubOp where
  | sub (symbols : List String)
  | unsub (symbols : List String)

/-- Run a sequence of subscribe/unsubscribe calls on the CME handler. -/
def CMEHandler.runSubOps (st : CMESubState) : List SubOp → CMESubState
  | [] => st
  | SubOp.sub ss :: ops => CMEHandler.runSubOps (CMEHandler.subscribe st ss) ops
  | SubOp.unsub ss :: ops =>
    CMEHandler.runSubOps (CMEHandler.unsubscribe st ss) ops

/-- Run a sequence of subscribe/unsubscribe calls on the Databento
handler. -/
def DatabentoHandler.runSubOps (st : SubState) : List SubOp → SubState
  | [] => st
  | SubOp.sub ss :: ops =>
    DatabentoHandler.runSubOps (DatabentoHandler.subscribe st ss) ops
  | SubOp.unsub ss :: ops =>
    DatabentoHandler.runSubOps (DatabentoHandler.unsubscribe st ss) ops

/- ============== base_handler.py : FeedHandler.start supervisor ============== -/

/-- The outcome of one iteration of the `while self._running` supervisor
loop in FeedHandler.start (base_handler.py:90-120), as seen by the
sequential model: either `connect()` raises, or it succeeds and the read
loop later raises, or the stream ends normally, or the iteration is
cancelled. -/
inductive IterEvent where
  | connectFail
  | readFail
  | streamEnd
  | cancelled
deriving DecidableEq, Repr

/-- Observable actions of one supervisor iteration, in program order. -/
inductive SupAction where
  | connectAttempt
  | connectOk
  | resubscribe
  | markDisconnected
  | callOnError
  | sleep (seconds : Nat)
deriving DecidableEq, Repr

/-- The supervisor-relevant state of FeedHandler (base_handler.py:34-42).
`reconnect_delay` starts at 1.0 s and only ever takes the float values
1, 2, 4, ..., 32, 60 (all integral), so it is modelled as a Nat of
seconds; `_max_reconnect_delay` is 60. -/
structure HandlerState where
  running : Bool := false
  connected : Bool := false
  reconnect_delay : Nat := 1
deriving DecidableEq, Repr

/-- One iteration of the supervisor loop of FeedHandler.start
(base_handler.py:90-120), entered with `running = true`.  Returns the
state after the iteration and the ordered list of observable actions.
`hasOnError` is whether `_on_error` was supplied; `hasSubs` is whether
`_subscriptions` is non-empty (base_handler.py:97). -/
def FeedHandler.iterate (hasOnError hasSubs : Bool) (s : HandlerState)
    (ev : IterEvent) : HandlerState × List SupAction :=
  match ev with
  | IterEvent.connectFail =>
    -- connect() raised: `_connected = True` is never reached; the except
    -- branch marks disconnected, calls on_error, sleeps, doubles the delay.
    ({ s with
        connected := false
        reconnect_delay := min (s.reconnect_delay * 2) 60 },
     [SupAction.connectAttempt, SupAction.markDisconnected] ++
       (if hasOnError then [SupAction.callOnError] else []) ++
       [SupAction.sleep s.reconnect_delay])
  | IterEvent.readFail =>
    -- connect() succeeded (delay reset to 1), then the body raised.
    ({ s with
        connected := false
        reconnect_delay := min (1 * 2) 60 },
     [SupAction.connectAttempt, SupAction.connectOk] ++
       (if hasSubs then [SupAction.resubscribe] else []) ++
       [SupAction.markDisconnected] ++
       (if hasOnError then [SupAction.callOnError] else []) ++
       [SupAction.sleep 1])
  | IterEvent.streamEnd =>
    -- connect() succeeded and _read_messages ended without raising: the
    -- iteration falls through to the next `while` test with no sleep.
    ({ s with connected := true, reconnect_delay := 1 },
     [SupAction.connectAttempt, SupAction.connectOk] ++
       (if hasSubs then [SupAction.resubscribe] else []))
  | IterEvent.cancelled =>
    -- asyncio.CancelledError: running = False, break.
    ({ s with running := false }, [SupAction.connectAttempt])

/-- The supervisor loop: iterate while `running` holds and events remain
(the event list is the schedule of what each connection attempt does). -/
def FeedHandler.run (hasOnError hasSubs : Bool) :
    HandlerState → List IterEvent → HandlerState × List SupAction
  | s, [] => (s, [])
  | s, ev :: evs =>
    if s.running then
      let (s', acts) := FeedHandler.iterate hasOnError hasSubs s ev
      let (s'', rest) := FeedHandler.run hasOnError hasSubs s' evs
      (s'', acts ++ rest)
    else (s, [])

/-- The sleeps of a supervisor trace, in order. -/
def sleepsOf (acts : List SupAction) : List Nat :=
  acts.filterMap (fun a =>
    match a with
    | SupAction.sleep d => some d
    | _ => none)

/-- The aggregator price-selection rule as the code actually behaves,
written in the words of the amended claim C4: trade price if present and
nonzero, else bid price if present and nonzero, else the ask price field
as-is (so an ask price of 0 is selected, and an absent ask yields
none). -/
def specSelectedPrice (t : Tick) : Option Int :=
  if t.trade_price.isSome ∧ t.trade_price ≠ some 0 then t.trade_price
  else if t.bid_price.isSome ∧ t.bid_price ≠ some 0 then t.bid_price
  else t.ask_price

/-- A well-formed CME packet for the spec's gap scenario: 12-byte header
(little-endian seq, zero sending time) followed by one incremental-
refresh message (template 32, msg_size 30) whose 20-byte body is a trade
entry ('2' = 50) for security id 1, price mantissa 100, size 5. -/
def cmeTestPacket (seq : Nat) : List Nat :=
  [seq % 256, seq / 256 % 256, seq / 65536 % 256, seq / 16777216 % 256] ++
    List.replicate 8 0 ++
    [30, 0, 0, 0, 32, 0, 0, 0, 0, 0] ++
    ([50] ++ [1, 0, 0, 0] ++ [100, 0, 0, 0, 0, 0, 0, 0] ++ [5, 0, 0, 0] ++
      [0, 0, 0])

/-- Structural invariant of a reachable ring-buffer state: power-of-two
capacity, in-range indices, slot list of full length, and every slot in
the occupied window (read_idx, read_idx+1, ..., read_idx+size-1, taken
mod capacity) actually holds a tick. -/
def RingBuffer.WF (rb : RingBuffer) : Prop :=
  (∃ k, rb.capacity = 2 ^ k) ∧
  rb.write_idx < rb.capacity ∧
  rb.read_idx < rb.capacity ∧
  rb.buffer.length = rb.capacity ∧
  (∀ i, i < rb.size →
    (rb.buffer.getD ((rb.read_idx + i) % rb.capacity) none).isSome = true)

/- =====================================================================
   Theorems.  Helper lemmas first, then one theorem per claim (witnesses
   and counterexamples alongside their claims).
   ===================================================================== -/

/- --------------------- bit-length lemmas --------------------- -/

theorem lt_two_pow_bitLenAux : ∀ fuel n, n ≤ fuel → n < 2 ^ bitLenAux fuel n := by
  intro fuel
  induction fuel with
  | zero =>
    intro n h
    have : n = 0 := Nat.le_zero.mp h
    simp [this, bitLenAux]
  | succ f ih =>
    intro n h
    by_cases h0 : n = 0
    · simp [h0, bitLenAux]
    · have hdiv : n / 2 ≤ f := by
        have : n / 2 < n := Nat.div_lt_self (Nat.pos_of_ne_zero h0) (by omega)
        omega
      have hlt := ih (n / 2) hdiv
      have hmod := Nat.div_add_mod n 2
      simp only [bitLenAux, h0, if_false]
      rw [pow_succ]
      omega

theorem bitLenAux_le_of_lt_pow :
    ∀ fuel n k, n ≤ fuel → n < 2 ^ k → bitLenAux fuel n ≤ k := by
  intro fuel
  induction fuel with
  | zero =>
    intro n k h _
    have : n = 0 := Nat.le_zero.mp h
    simp [this, bitLenAux]
  | succ f ih =>
    intro n k h hk
    by_cases h0 : n = 0
    · simp [h0, bitLenAux]
    · have hk1 : 1 ≤ k := by
        rcases Nat.eq_zero_or_pos k with hk0 | hk0
        · subst hk0; simp at hk; omega
        · exact hk0
      have hdiv : n / 2 ≤ f := by
        have : n / 2 < n := Nat.div_lt_self (Nat.pos_of_ne_zero h0) (by omega)
        omega
      have hpow : 2 ^ k = 2 * 2 ^ (k - 1) := by
        conv_lhs => rw [show k = (k - 1) + 1 by omega]
        rw [pow_succ]; ring
      have hdk : n / 2 < 2 ^ (k - 1) := by
        have hmod := Nat.div_add_mod n 2
        omega
      have := ih (n / 2) (k - 1) hdiv hdk
      simp only [bitLenAux, h0, if_false]
      omega

theorem lt_two_pow_bitLength (n : Nat) : n < 2 ^ bitLength n :=
  lt_two_pow_bitLenAux n n (Nat.le_refl n)

theorem bitLength_le_of_lt_pow {n k : Nat} (h : n < 2 ^ k) : bitLength n ≤ k :=
  bitLenAux_le_of_lt_pow n n k (Nat.le_refl n) h

/- --------------------- ring-buffer capacity --------------------- -/

theorem RingBuffer.init_capacity (n : Nat) :
    (RingBuffer.init n).capacity = 2 ^ bitLength (n - 1) := by
  simp [RingBuffer.init, Nat.shiftLeft_eq]

theorem RingBuffer.init_buffer_length (n : Nat) :
    (RingBuffer.init n).buffer.length = (RingBuffer.init n).capacity := by
  simp [RingBuffer.init]

/-- The requested capacity is at most the actual capacity (for N ≥ 1),
and the actual capacity is the least power of two with that property. -/
theorem RingBuffer.capacity_least_pow_two {n : Nat} (h : 1 ≤ n) :
    n ≤ (RingBuffer.init n).capacity ∧
      (∀ j, n ≤ 2 ^ j → (RingBuffer.init n).capacity ≤ 2 ^ j) := by
  rw [RingBuffer.init_capacity]
  constructor
  · have := lt_two_pow_bitLength (n - 1)
    omega
  · intro j hj
    have hlt : n - 1 < 2 ^ j := by omega
    exact Nat.pow_le_pow_right (by omega) (bitLength_le_of_lt_pow hlt)

/- --------------------- mask and size arithmetic --------------------- -/

theorem land_mask_of_pow {cap k : Nat} (h : cap = 2 ^ k) (x : Nat) :
    x &&& (cap - 1) = x % cap := by
  subst h
  exact Nat.and_pow_two_sub_one_eq_mod x k

/-- Closed form of `size` when both indices are in range. -/
theorem RingBuffer.size_spec (rb : RingBuffer)
    (hw : rb.write_idx < rb.capacity) (hr : rb.read_idx < rb.capacity) :
    rb.size =
      if rb.read_idx ≤ rb.write_idx then rb.write_idx - rb.read_idx
      else rb.capacity + rb.write_idx - rb.read_idx := by
  have hc : 0 < rb.capacity := by omega
  unfold RingBuffer.size
  by_cases hle : rb.read_idx ≤ rb.write_idx
  · rw [if_pos hle]
    have h0 : (0 : Int) ≤ (rb.write_idx : Int) - rb.read_idx := by
      omega
    have h1 : (rb.write_idx : Int) - rb.read_idx < (rb.capacity : Int) := by
      omega
    rw [Int.emod_eq_of_lt h0 h1]
    omega
  · rw [if_neg hle]
    have heq : ((rb.write_idx : Int) - rb.read_idx) % rb.capacity =
        ((rb.write_idx : Int) - rb.read_idx + rb.capacity * 1) % rb.capacity := by
      rw [Int.add_mul_emod_self_left]
    rw [heq]
    have h0 : (0 : Int) ≤ (rb.write_idx : Int) - rb.read_idx + rb.capacity * 1 := by
      omega
    have h1 : (rb.write_idx : Int) - rb.read_idx + rb.capacity * 1 <
        (rb.capacity : Int) := by
      omega
    rw [Int.emod_eq_of_lt h0 h1]
    omega

/-- Unfolded form of push with the bitmask replaced by mod. -/
theorem RingBuffer.push_eq {k : Nat} (rb : RingBuffer) (t : Tick)
    (hcap : rb.capacity = 2 ^ k) :
    rb.push t =
      if (rb.write_idx + 1) % rb.capacity = rb.read_idx then (rb, false)
      else
        ({ rb with
            buffer := rb.buffer.set rb.write_idx (some t)
            write_idx := (rb.write_idx + 1) % rb.capacity },
         true) := by
  unfold RingBuffer.push RingBuffer.mask
  rw [land_mask_of_pow hcap]

/-- Unfolded form of pop with the bitmask replaced by mod. -/
theorem RingBuffer.pop_eq {k : Nat} (rb : RingBuffer)
    (hcap : rb.capacity = 2 ^ k) :
    rb.pop =
      if rb.read_idx = rb.write_idx then (rb, none)
      else
        ({ rb with
            buffer := rb.buffer.set rb.read_idx none
            read_idx := (rb.read_idx + 1) % rb.capacity },
         rb.buffer.getD rb.read_idx none) := by
  unfold RingBuffer.pop RingBuffer.mask
  rw [land_mask_of_pow hcap]

/- --------------------- linear (no-wrap) push/pop runs --------------------- -/

theorem RingBuffer.pushAll_linear :
    ∀ (L : List Tick) (rb : RingBuffer) (H : List Tick) (k : Nat),
      rb.capacity = 2 ^ k →
      rb.buffer.length = rb.capacity →
      rb.read_idx = 0 →
      rb.write_idx = H.length →
      H.length < rb.capacity →
      (∀ i, i < H.length → rb.buffer.get? i = some (H.get? i)) →
      (rb.pushAll L).2.all (fun b => b) = true →
      (rb.pushAll L).1.capacity = rb.capacity ∧
        (rb.pushAll L).1.buffer.length = rb.capacity ∧
        (rb.pushAll L).1.read_idx = 0 ∧
        (rb.pushAll L).1.write_idx = H.length + L.length ∧
        H.length + L.length < rb.capacity ∧
        (∀ i, i < H.length + L.length →
          (rb.pushAll L).1.buffer.get? i = some ((H ++ L).get? i)) := by
  intro L
  induction L with
  | nil =>
    intro rb H k hcap hlen hr hw hHlt hslots _
    refine ⟨rfl, hlen, hr, by simpa using hw, by simpa using hHlt, ?_⟩
    intro i hi
    simp only [List.length_nil, Nat.add_zero] at hi
    simpa using hslots i hi
  | cons t ts ih =>
    intro rb H k hcap hlen hr hw hHlt hslots hall
    have hpush := RingBuffer.push_eq rb t hcap
    by_cases hfull : (rb.write_idx + 1) % rb.capacity = rb.read_idx
    · -- the first push would have failed, contradicting all-success
      rw [if_pos hfull] at hpush
      exfalso
      simp only [RingBuffer.pushAll, hpush, List.all_cons] at hall
      simp at hall
    · rw [if_neg hfull] at hpush
      -- the first push succeeds and appends at slot H.length
      have hlt : H.length + 1 < rb.capacity := by
        rcases Nat.lt_or_ge (rb.write_idx + 1) rb.capacity with h | h
        · omega
        · exfalso
          have : rb.write_idx + 1 = rb.capacity := by omega
          apply hfull
          rw [this, Nat.mod_self, hr]
      have hmod : (rb.write_idx + 1) % rb.capacity = H.length + 1 := by
        rw [hw]
        exact Nat.mod_eq_of_lt hlt
      set rb' : RingBuffer :=
        { rb with
            buffer := rb.buffer.set rb.write_idx (some t)
            write_idx := (rb.write_idx + 1) % rb.capacity } with hrb'
      have hstep : rb.pushAll (t :: ts) = ((rb'.pushAll ts).1, true :: (rb'.pushAll ts).2) := by
        simp only [RingBuffer.pushAll, hpush]
      have hall' : (rb'.pushAll ts).2.all (fun b => b) = true := by
        rw [hstep] at hall
        simpa using hall
      have hres := ih rb' (H ++ [t]) k
        (by simp [hrb', hcap])
        (by simp [hrb', hlen])
        (by simp [hrb', hr])
        (by simp [hrb', hmod])
        (by simpa using hlt)
        (by
          intro i hi
          simp only [List.length_append, List.length_cons, List.length_nil] at hi
          by_cases hie : i = H.length
          · subst hie
            have hblen : rb.write_idx < rb.buffer.length := by
              rw [hlen, hw]; omega
            simp only [hrb']
            rw [hw] at hblen ⊢
            rw [List.get?_set_eq_of_lt (some t) hblen]
            rw [List.get?_concat_length]
          · have hiH : i < H.length := by omega
            simp only [hrb']
            rw [hw]
            rw [List.get?_set_ne (some t) rb.buffer (by omega)]
            rw [hslots i hiH]
            congr 1
            rw [List.get?_append hiH])
        hall'
      rw [hstep]
      simp only at hres ⊢
      obtain ⟨h1, h2, h3, h4, h5, h6⟩ := hres
      refine ⟨h1, h2, h3, ?_, ?_, ?_⟩
      · rw [h4]; simp; omega
      · simp only [List.length_cons]
        simp only [List.length_append, List.length_cons, List.length_nil] at h5
        omega
      · intro i hi
        have hi' : i < (H ++ [t]).length + ts.length := by
          simp only [List.length_append, List.length_cons, List.length_nil]
          simp only [List.length_cons] at hi
          omega
        rw [h6 i hi']
        congr 2
        rw [List.append_assoc]
        rfl

theorem RingBuffer.popN_linear :
    ∀ (n : Nat) (rb : RingBuffer) (M : List Tick) (k : Nat),
      rb.capacity = 2 ^ k →
      rb.buffer.length = rb.capacity →
      rb.write_idx < rb.capacity →
      rb.read_idx + n = rb.write_idx →
      M.length = n →
      (∀ i, i < n → rb.buffer.get? (rb.read_idx + i) = some (M.get? i)) →
      (rb.popN n).2 = M.map some ∧
        (rb.popN n).1.read_idx = (rb.popN n).1.write_idx := by
  intro n
  induction n with
  | zero =>
    intro rb M k hcap hlen hw hr hM _
    have : M = [] := List.eq_nil_of_length_eq_zero hM
    subst this
    simp [RingBuffer.popN]
    omega
  | succ m ih =>
    intro rb M k hcap hlen hw hr hM hslots
    have hne : rb.read_idx ≠ rb.write_idx := by omega
    have hpop := RingBuffer.pop_eq rb hcap
    rw [if_neg hne] at hpop
    rcases M with _ | ⟨m0, M'⟩
    · simp at hM
    · have hhead : rb.buffer.getD rb.read_idx none = some m0 := by
        have h0 := hslots 0 (by omega)
        simp only [Nat.add_zero] at h0
        show (rb.buffer.get? rb.read_idx).getD none = some m0
        rw [h0]
        rfl
      have hmod : (rb.read_idx + 1) % rb.capacity = rb.read_idx + 1 :=
        Nat.mod_eq_of_lt (by omega)
      set rb' : RingBuffer :=
        { rb with
            buffer := rb.buffer.set rb.read_idx none
            read_idx := (rb.read_idx + 1) % rb.capacity } with hrb'
      have hstep : rb.popN (m + 1) = ((rb'.popN m).1, some m0 :: (rb'.popN m).2) := by
        simp only [RingBuffer.popN, hpop, hhead]
      have hres := ih rb' M' k
        (by simp [hrb', hcap])
        (by simp [hrb', hlen])
        (by simp [hrb', hw])
        (by simp [hrb', hmod]; omega)
        (by simpa using hM)
        (by
          intro i hi
          simp only [hrb', hmod]
          rw [List.get?_set_ne none rb.buffer (by omega)]
          have := hslots (i + 1) (by omega)
          rw [show rb.read_idx + 1 + i = rb.read_idx + (i + 1) by omega]
          rw [this]
          rfl)
      rw [hstep]
      exact ⟨by simp [hres.1], hres.2⟩

/- --------------------- C5 --------------------- -/

/-- Claim C5: for every requested capacity N ≥ 1, the ring buffer's
actual capacity is the least power of two ≥ N; and for every list L of
ticks all of whose pushes (from a fresh buffer) succeed, popping
L.length times returns exactly the pushed ticks (pop count = push count)
and leaves the buffer empty. -/
theorem claim_C5_capacity_and_push_pop {N : Nat} (h : 1 ≤ N) :
    (N ≤ (RingBuffer.init N).capacity ∧
      (∃ k, (RingBuffer.init N).capacity = 2 ^ k) ∧
      (∀ j, N ≤ 2 ^ j → (RingBuffer.init N).capacity ≤ 2 ^ j)) ∧
    (∀ L : List Tick,
      ((RingBuffer.init N).pushAll L).2.all (fun b => b) = true →
      ((((RingBuffer.init N).pushAll L).1.popN L.length).2 = L.map some ∧
        (((RingBuffer.init N).pushAll L).1.popN L.length).1.isEmpty = true)) := by
  obtain ⟨hle, hmin⟩ := RingBuffer.capacity_least_pow_two h
  refine ⟨⟨hle, ⟨bitLength (N - 1), RingBuffer.init_capacity N⟩, hmin⟩, ?_⟩
  intro L hall
  have hpush := RingBuffer.pushAll_linear L (RingBuffer.init N) [] (bitLength (N - 1))
    (RingBuffer.init_capacity N)
    (RingBuffer.init_buffer_length N)
    rfl
    rfl
    (by
      rw [RingBuffer.init_capacity]
      exact Nat.pos_pow_of_pos _ (by omega))
    (by intro i hi; simp at hi)
    hall
  obtain ⟨hc, hlen, hr, hw, hlt, hslots⟩ := hpush
  simp only [List.nil_append, List.length_nil, Nat.zero_add] at hw hlt hslots
  have hpop := RingBuffer.popN_linear L.length ((RingBuffer.init N).pushAll L).1 L
    (bitLength (N - 1))
    (by rw [hc]; exact RingBuffer.init_capacity N)
    (by rw [hlen, hc])
    (by rw [hw, hc]; exact hlt)
    (by rw [hr, hw]; omega)
    rfl
    (by intro i hi; rw [hr]; simpa using hslots i hi)
  refine ⟨hpop.1, ?_⟩
  simp [RingBuffer.isEmpty, hpop.2]

/-- Witness for C5 at N = 3 (capacity 4) with two concrete pushed ticks. -/
theorem claim_C5_witness :
    (1 ≤ 3 ∧
      (3 ≤ (RingBuffer.init 3).capacity ∧
        (∃ k, (RingBuffer.init 3).capacity = 2 ^ k) ∧
        (∀ j, 3 ≤ 2 ^ j → (RingBuffer.init 3).capacity ≤ 2 ^ j))) ∧
    ((((RingBuffer.init 3).pushAll
        [{ timestamp_ns := 0, symbol := "ES", tick_type := TickType.TRADE,
           trade_price := some 100 },
         { timestamp_ns := 1, symbol := "ES", tick_type := TickType.TRADE,
           trade_price := some 101 }]).1.popN 2).2 =
      [some { timestamp_ns := 0, symbol := "ES", tick_type := TickType.TRADE,
              trade_price := some 100 },
       some { timestamp_ns := 1, symbol := "ES", tick_type := TickType.TRADE,
              trade_price := some 101 }]) := by
  have h3 : (1 : Nat) ≤ 3 := by decide
  have := claim_C5_capacity_and_push_pop h3
  refine ⟨⟨h3, this.1⟩, ?_⟩
  have happ := this.2
    [{ timestamp_ns := 0, symbol := "ES", tick_type := TickType.TRADE,
       trade_price := some 100 },
     { timestamp_ns := 1, symbol := "ES", tick_type := TickType.TRADE,
       trade_price := some 101 }]
    (by decide)
  exact happ.1

/- --------------------- C9 --------------------- -/

/-- Claim C9: a ring buffer of requested capacity 1 has actual capacity
1; on any capacity-1 state (both indices are necessarily 0) every push
fails leaving the state unchanged and every pop returns none; and in
general at most capacity − 1 ticks are held (`size ≤ capacity − 1`). -/
theorem claim_C9_capacity_one_unusable :
    (RingBuffer.init 1).capacity = 1 ∧
    (∀ (rb : RingBuffer) (t : Tick),
      rb.capacity = 1 → rb.write_idx = 0 → rb.read_idx = 0 →
      (rb.push t).2 = false ∧ (rb.push t).1 = rb ∧ rb.pop.2 = none) ∧
    (∀ rb : RingBuffer,
      rb.write_idx < rb.capacity → rb.read_idx < rb.capacity →
      rb.size ≤ rb.capacity - 1) := by
  refine ⟨by decide, ?_, ?_⟩
  · intro rb t hcap hw hr
    have hpush : rb.push t = (rb, false) := by
      unfold RingBuffer.push RingBuffer.mask
      rw [hcap, hw, hr]
      simp
    have hpop : rb.pop = (rb, none) := by
      unfold RingBuffer.pop
      rw [hw, hr]
      simp
    exact ⟨by rw [hpush], by rw [hpush], by rw [hpop]⟩
  · intro rb hw hr
    have := RingBuffer.size_spec rb hw hr
    rw [this]
    by_cases h : rb.read_idx ≤ rb.write_idx
    · rw [if_pos h]; omega
    · rw [if_neg h]; omega

/-- Witness for C9 on the freshly constructed capacity-1 buffer. -/
theorem claim_C9_witness :
    ((RingBuffer.init 1).push
        { timestamp_ns := 0, symbol := "ES", tick_type := TickType.TRADE,
          trade_price := some 100 }).2 = false ∧
    (RingBuffer.init 1).pop.2 = none ∧
    (RingBuffer.init 1).size ≤ (RingBuffer.init 1).capacity - 1 := by
  have h := claim_C9_capacity_one_unusable
  refine ⟨(h.2.1 (RingBuffer.init 1) _ (by decide) (by decide) (by decide)).1,
    (h.2.1 (RingBuffer.init 1)
      { timestamp_ns := 0, symbol := "ES", tick_type := TickType.TRADE,
        trade_price := some 100 } (by decide) (by decide) (by decide)).2.2,
    h.2.2 (RingBuffer.init 1) (by decide) (by decide)⟩

/- --------------------- C1 --------------------- -/

/-- Counterexample to claim C1: a late tick (bar timestamp 0, strictly
below the current bar's timestamp 1000000000) is NOT ignored by
process_tick.  No bar is emitted, but the current bar is updated in
place: after the late tick, close = 200 and tick_count = 2, not the
untouched bar the claim demands. -/
theorem claim_C1_counterexample :
    ((TickAggregator.init 1).getBarTimestamp 0 = 0 ∧ (0 : Int) < 1000000000) ∧
    aggGet (((TickAggregator.init 1).processTick
      { timestamp_ns := 1000000000, symbol := "ES",
        tick_type := TickType.TRADE, trade_price := some 100 }).1.bars) "ES" =
      some { timestamp_ns := 1000000000, symbol := "ES", open_price := 100,
             high := 100, low := 100, close := 100, volume := 0,
             tick_count := 1, precision := 2 } ∧
    ((((TickAggregator.init 1).processTick
      { timestamp_ns := 1000000000, symbol := "ES",
        tick_type := TickType.TRADE, trade_price := some 100 }).1.processTick
      { timestamp_ns := 0, symbol := "ES",
        tick_type := TickType.TRADE, trade_price := some 200 }).2 = none) ∧
    aggGet ((((TickAggregator.init 1).processTick
      { timestamp_ns := 1000000000, symbol := "ES",
        tick_type := TickType.TRADE, trade_price := some 100 }).1.processTick
      { timestamp_ns := 0, symbol := "ES",
        tick_type := TickType.TRADE, trade_price := some 200 }).1.bars) "ES" =
      some { timestamp_ns := 1000000000, symbol := "ES", open_price := 100,
             high := 200, low := 100, close := 200, volume := 0,
             tick_count := 2, precision := 2 } := by
  decide

/-- Claim C1 as amended: a tick whose bar timestamp is at most the
current bar's timestamp (so both on-time ticks and late ticks) updates
the current bar in place — high = max, low = min, close = price,
volume += size, tick_count += 1 — and emits no bar; late ticks are not
ignored. -/
theorem claim_C1_late_tick_updates_bar (agg : TickAggregator) (t : Tick)
    (cur : AggBar) (p : Int)
    (hbar : aggGet agg.bars t.symbol = some cur)
    (hp : tickPrice t = some p)
    (hle : agg.getBarTimestamp t.timestamp_ns ≤ cur.timestamp_ns) :
    (agg.processTick t).2 = none ∧
    (agg.processTick t).1.bars = aggSet agg.bars t.symbol
      { cur with
        high := max cur.high p
        low := min cur.low p
        close := p
        volume := cur.volume + tickSize t
        tick_count := cur.tick_count + 1 } := by
  unfold TickAggregator.processTick
  simp only [hp, hbar]
  rw [if_neg (not_lt.mpr hle)]
  exact ⟨rfl, rfl⟩

/-- Witness for the amended C1 on the concrete late tick of the
counterexample. -/
theorem claim_C1_witness :
    ((((TickAggregator.init 1).processTick
      { timestamp_ns := 1000000000, symbol := "ES",
        tick_type := TickType.TRADE, trade_price := some 100 }).1.processTick
      { timestamp_ns := 0, symbol := "ES",
        tick_type := TickType.TRADE, trade_price := some 200 }).2 = none) := by
  have h := claim_C1_late_tick_updates_bar
    ((TickAggregator.init 1).processTick
      { timestamp_ns := 1000000000, symbol := "ES",
        tick_type := TickType.TRADE, trade_price := some 100 }).1
    { timestamp_ns := 0, symbol := "ES",
      tick_type := TickType.TRADE, trade_price := some 200 }
    { timestamp_ns := 1000000000, symbol := "ES", open_price := 100,
      high := 100, low := 100, close := 100, volume := 0,
      tick_count := 1, precision := 2 }
    200
    (by decide) (by decide) (by decide)
  exact h.1

/- --------------------- C4 --------------------- -/

/-- Counterexample to claim C4: the claim says presence includes the
value 0, so a tick with trade_price = 0 and bid_price = 500 should
contribute price 0 (the trade price).  The code's Python `or` chain
treats 0 as absent and selects the bid: the fresh bar opens at 500,
not 0. -/
theorem claim_C4_counterexample :
    tickPrice
      { timestamp_ns := 0, symbol := "ES", tick_type := TickType.TRADE,
        trade_price := some 0, bid_price := some 500 } = some 500 ∧
    aggGet (((TickAggregator.init 60).processTick
      { timestamp_ns := 0, symbol := "ES", tick_type := TickType.TRADE,
        trade_price := some 0, bid_price := some 500 }).1.bars) "ES" =
      some { timestamp_ns := 0, symbol := "ES", open_price := 500,
             high := 500, low := 500, close := 500, volume := 0,
             tick_count := 1, precision := 2 } ∧
    (500 : Int) ≠ 0 := by
  decide

/-- Claim C4 as amended: the contributing price is trade_price if
present and nonzero, else bid_price if present and nonzero, else the
ask_price field as-is (an ask of 0 is used; zero trade/bid prices are
skipped); a tick whose selection is empty returns none and leaves the
aggregator unchanged; the volume contribution is trade_size when
present and 0 otherwise. -/
theorem claim_C4_price_selection (agg : TickAggregator) (t : Tick) :
    tickPrice t = specSelectedPrice t ∧
    tickSize t = t.trade_size.getD 0 ∧
    (tickPrice t = none → agg.processTick t = (agg, none)) := by
  refine ⟨?_, ?_, ?_⟩
  · unfold tickPrice specSelectedPrice pyOrInt
    rcases htp : t.trade_price with _ | v
    · rcases hbp : t.bid_price with _ | w
      · simp
      · by_cases hw : w = 0 <;> simp [hw]
    · by_cases hv : v = 0
      · subst hv
        rcases hbp : t.bid_price with _ | w
        · simp
        · by_cases hw : w = 0 <;> simp [hw]
      · simp [hv]
  · unfold tickSize
    rcases hts : t.trade_size with _ | v
    · rfl
    · by_cases hv : v = 0 <;> simp [hv]
  · intro hnone
    unfold TickAggregator.processTick
    rw [hnone]

/-- Witness for the amended C4 on a tick with a zero trade price, a
nonzero bid and no ask. -/
theorem claim_C4_witness :
    tickPrice
      { timestamp_ns := 0, symbol := "ES", tick_type := TickType.TRADE,
        trade_price := some 0, bid_price := some 500 } =
      specSelectedPrice
        { timestamp_ns := 0, symbol := "ES", tick_type := TickType.TRADE,
          trade_price := some 0, bid_price := some 500 } ∧
    (TickAggregator.init 60).processTick
        { timestamp_ns := 0, symbol := "ES", tick_type := TickType.QUOTE,
          trade_price := some 0 } =
      (TickAggregator.init 60, none) :=
  ⟨(claim_C4_price_selection (TickAggregator.init 60)
      { timestamp_ns := 0, symbol := "ES", tick_type := TickType.TRADE,
        trade_price := some 0, bid_price := some 500 }).1,
   (claim_C4_price_selection (TickAggregator.init 60)
      { timestamp_ns := 0, symbol := "ES", tick_type := TickType.QUOTE,
        trade_price := some 0 }).2.2 (by decide)⟩

/- --------------------- C2 --------------------- -/

/-- Counterexample to claim C2, in both handlers.  A Databento non-
heartbeat message carrying no price keys parses to a Tick with no price
at all; a Bloomberg SUBSCRIPTION_DATA event with BID = 0.0 and ASK = 1.0
parses to a BBO tick whose bid price is None (Python truthiness maps
0.0 to None), violating the BBO half of the invariant. -/
theorem claim_C2_counterexample :
    (match DatabentoHandler.parseMessage {} 7 with
      | some t => ¬ tickInvariant t
      | none => False) ∧
    (match BloombergHandler.parseEvent
        { event_type := some "SUBSCRIPTION_DATA", bid := some 0, ask := some 1 }
        0 with
      | some t => t.tick_type = TickType.BBO ∧ t.bid_price = none ∧
          ¬ tickInvariant t
      | none => False) := by
  constructor
  · simp [DatabentoHandler.parseMessage, tickInvariant]
  · simp [BloombergHandler.parseEvent, pyPriceIfTruthy, tickInvariant]

/-- Claim C2 as amended: the parse functions establish the tick
invariant provided the input carries at least one price field, and (for
Bloomberg, whose conversion drops falsy values) no present price field
is zero.  Heartbeats / non-SUBSCRIPTION_DATA events are covered by the
`= some t` premise, since they parse to None. -/
theorem claim_C2_parse_invariant :
    (∀ (m : DbMsg) (rt : Int) (t : Tick),
      (m.bid_px.isSome ∨ m.ask_px.isSome ∨ m.trade_px.isSome) →
      DatabentoHandler.parseMessage m rt = some t →
      tickInvariant t) ∧
    (∀ (e : BbEvent) (ts : Int) (t : Tick),
      (e.bid.isSome ∨ e.ask.isSome ∨ e.last.isSome) →
      e.bid ≠ some 0 → e.ask ≠ some 0 → e.last ≠ some 0 →
      BloombergHandler.parseEvent e ts = some t →
      tickInvariant t) := by
  constructor
  · intro m rt t hp heq
    unfold DatabentoHandler.parseMessage at heq
    by_cases hhb : m.msg_type.getD "mbp" = "heartbeat"
    · rw [if_pos hhb] at heq; cases heq
    · rw [if_neg hhb] at heq
      have ht := Option.some.inj heq
      subst ht
      constructor
      · rcases hp with h | h | h
        · left
          rcases hb : m.bid_px with _ | v
          · rw [hb] at h; cases h
          · simp [hb]
        · right; left
          rcases ha : m.ask_px with _ | v
          · rw [ha] at h; cases h
          · simp [ha]
        · right; right
          rcases htp : m.trade_px with _ | v
          · rw [htp] at h; cases h
          · simp [htp]
      · intro hbbo
        simp only at hbbo
        by_cases h1 : m.trade_px.isSome
        · simp [h1] at hbbo
        · by_cases h2 : m.bid_px.isSome && m.ask_px.isSome
          · simp only [Bool.and_eq_true] at h2
            constructor
            · rcases hb : m.bid_px with _ | v
              · rw [hb] at h2; cases h2.1
              · simp [hb]
            · rcases ha : m.ask_px with _ | v
              · rw [ha] at h2; cases h2.2
              · simp [ha]
          · simp [h1, h2] at hbbo
  · intro e ts t hp hb0 ha0 hl0 heq
    unfold BloombergHandler.parseEvent at heq
    by_cases hty : e.event_type ≠ some "SUBSCRIPTION_DATA"
    · rw [if_pos hty] at heq; cases heq
    · rw [if_neg hty] at heq
      have ht := Option.some.inj heq
      subst ht
      constructor
      · rcases hp with h | h | h
        · left
          rcases hb : e.bid with _ | v
          · rw [hb] at h; cases h
          · have hv : v ≠ 0 := by rw [hb] at hb0; simpa using hb0
            simp [pyPriceIfTruthy, hb, hv]
        · right; left
          rcases ha : e.ask with _ | v
          · rw [ha] at h; cases h
          · have hv : v ≠ 0 := by rw [ha] at ha0; simpa using ha0
            simp [pyPriceIfTruthy, ha, hv]
        · right; right
          rcases hl : e.last with _ | v
          · rw [hl] at h; cases h
          · have hv : v ≠ 0 := by rw [hl] at hl0; simpa using hl0
            simp [pyPriceIfTruthy, hl, hv]
      · intro hbbo
        simp only at hbbo
        by_cases h1 : e.last.isSome
        · simp [h1] at hbbo
        · by_cases h2 : e.bid.isSome && e.ask.isSome
          · simp only [Bool.and_eq_true] at h2
            constructor
            · rcases hb : e.bid with _ | v
              · rw [hb] at h2; cases h2.1
              · have hv : v ≠ 0 := by rw [hb] at hb0; simpa using hb0
                simp [pyPriceIfTruthy, hb, hv]
            · rcases ha : e.ask with _ | v
              · rw [ha] at h2; cases h2.2
              · have hv : v ≠ 0 := by rw [ha] at ha0; simpa using ha0
                simp [pyPriceIfTruthy, ha, hv]
          · simp [h1, h2] at hbbo

/-- Witness for the amended C2 at a Databento BBO message and a
Bloomberg trade event. -/
theorem claim_C2_witness :
    (match DatabentoHandler.parseMessage { bid_px := some 1, ask_px := some 2 } 0 with
      | some t => tickInvariant t
      | none => False) ∧
    (match BloombergHandler.parseEvent
        { event_type := some "SUBSCRIPTION_DATA", last := some 3 } 0 with
      | some t => tickInvariant t
      | none => False) := by
  constructor
  · rcases h : DatabentoHandler.parseMessage { bid_px := some 1, ask_px := some 2 } 0
      with _ | t
    · exact absurd h (by simp [DatabentoHandler.parseMessage])
    · exact claim_C2_parse_invariant.1 _ 0 t (by decide) h
  · rcases h : BloombergHandler.parseEvent
        { event_type := some "SUBSCRIPTION_DATA", last := some 3 } 0 with _ | t
    · exact absurd h (by simp [BloombergHandler.parseEvent])
    · exact claim_C2_parse_invariant.2 _ 0 t (by decide) (by decide) (by decide)
        (by decide) h

/- --------------------- C3 --------------------- -/

/-- Counterexample to the universal clause of claim C3: on the very
first packet the handler's expected_seq is 0, so seq = 100 exceeds
expected_seq, yet no gap (0, 99) is recorded — the code guards gap
recording with `expected_seq > 0`. -/
theorem claim_C3_counterexample :
    readLE (pySlice (cmeTestPacket 100) 0 4) = 100 ∧
    ({} : CMEState).expected_seq < 100 ∧
    (CMEHandler.parsePacket {} (cmeTestPacket 100)).1.gaps = [] ∧
    (CMEHandler.parsePacket {} (cmeTestPacket 100)).1.expected_seq = 101 := by
  decide

/-- Claim C3 as amended: the 100/101/105 scenario records exactly the
gap (102, 104) with gaps_detected = 1 and one tick parsed per packet;
in general, on any packet passing the 12-byte header check, a seq
exceeding a POSITIVE expected_seq appends the gap
(expected_seq, seq − 1), a first packet (expected_seq = 0) records
nothing, and expected_seq becomes seq + 1 regardless. -/
theorem claim_C3_gap_detection :
    ((CMEHandler.parsePackets {}
        [cmeTestPacket 100, cmeTestPacket 101, cmeTestPacket 105]).1.gaps =
        [(102, 104)] ∧
      (CMEHandler.parsePackets {}
        [cmeTestPacket 100, cmeTestPacket 101, cmeTestPacket 105]).1.gapsDetected = 1 ∧
      ((CMEHandler.parsePackets {}
        [cmeTestPacket 100, cmeTestPacket 101, cmeTestPacket 105]).2.map
          List.length) = [1, 1, 1]) ∧
    (∀ (st : CMEState) (data : List Nat),
      12 ≤ data.length →
      ((0 < st.expected_seq → st.expected_seq < readLE (pySlice data 0 4) →
        (CMEHandler.parsePacket st data).1.gaps =
          st.gaps ++ [(st.expected_seq, readLE (pySlice data 0 4) - 1)]) ∧
       (st.expected_seq = 0 →
        (CMEHandler.parsePacket st data).1.gaps = st.gaps) ∧
       (CMEHandler.parsePacket st data).1.expected_seq =
         readLE (pySlice data 0 4) + 1)) := by
  refine ⟨by decide, ?_⟩
  intro st data hlen
  unfold CMEHandler.parsePacket
  rw [if_neg (by omega)]
  refine ⟨?_, ?_, rfl⟩
  · intro hpos hgt
    have hne : readLE (pySlice data 0 4) ≠ st.expected_seq := by omega
    simp only [hpos, hne, hgt, and_true, if_true, gt_iff_lt]
    rw [if_pos (And.intro True.intro hne)]
  · intro h0
    simp [h0]

/-- Witness for C3's general clause on the second concrete packet of the
scenario (expected_seq 102, incoming seq 105). -/
theorem claim_C3_witness :
    12 ≤ (cmeTestPacket 105).length ∧
    (CMEHandler.parsePacket
      { expected_seq := 102, gaps := [], security_map := [] }
      (cmeTestPacket 105)).1.gaps = [(102, 104)] ∧
    (CMEHandler.parsePacket
      { expected_seq := 102, gaps := [], security_map := [] }
      (cmeTestPacket 105)).1.expected_seq = 106 := by
  have h := (claim_C3_gap_detection.2
    { expected_seq := 102, gaps := [], security_map := [] }
    (cmeTestPacket 105) (by decide))
  refine ⟨by decide, ?_, ?_⟩
  · have h1 := h.1 (by decide) (by decide)
    rw [h1]
    decide
  · rw [h.2.2]
    decide

/- --------------------- C7 helper lemmas --------------------- -/

theorem find?_pyDictSet_ne {α : Type} (m : List (String × α)) (k a : String)
    (v : α) (h : k ≠ a) :
    (pyDictSet m k v).find? (fun p => p.1 == a) =
      m.find? (fun p => p.1 == a) := by
  induction m with
  | nil =>
    have hk : (k == a) = false := beq_eq_false_iff_ne.mpr h
    simp [pyDictSet, List.find?, hk]
  | cons p rest ih =>
    rcases p with ⟨k', v'⟩
    by_cases hk : k' = k
    · subst hk
      simp only [pyDictSet, beq_self_eq_true, if_true]
      have hna : (k' == a) = false := beq_eq_false_iff_ne.mpr h
      simp [List.find?, hna]
    · have hne : (k' == k) = false := beq_eq_false_iff_ne.mpr hk
      simp only [pyDictSet, hne, if_false]
      by_cases ha : k' = a
      · subst ha
        simp [List.find?]
      · have hna : (k' == a) = false := beq_eq_false_iff_ne.mpr ha
        simp [List.find?, hna, ih]

theorem find?_foldl_pyDictSet_ne {α : Type} (f : String → α) (a : String) :
    ∀ (ss : List String) (m : List (String × α)), a ∉ ss →
      ((ss.foldl (fun m s => pyDictSet m s (f s)) m).find?
          (fun p => p.1 == a)) =
        m.find? (fun p => p.1 == a) := by
  intro ss
  induction ss with
  | nil => intro m _; rfl
  | cons s rest ih =>
    intro m hmem
    have hs : s ≠ a := by
      intro h; exact hmem (by simp [h])
    have hrest : a ∉ rest := by
      intro h; exact hmem (by simp [h])
    simp only [List.foldl_cons]
    rw [ih _ hrest, find?_pyDictSet_ne _ _ _ _ hs]

theorem not_mem_pyListRemove {l : List String} {a s : String} (h : a ∉ l) :
    a ∉ pyListRemove l s := by
  induction l with
  | nil => simp [pyListRemove]
  | cons x xs ih =>
    have hx : a ≠ x := by intro he; exact h (by simp [he])
    have hxs : a ∉ xs := by intro hm; exact h (by simp [hm])
    unfold pyListRemove
    by_cases hb : x = s
    · simp [hb, hxs]
    · have hbf : (x == s) = false := beq_eq_false_iff_ne.mpr hb
      simp only [hbf, Bool.false_eq_true, if_false, List.mem_cons, not_or]
      exact ⟨hx, ih hxs⟩

theorem find?_pyDictDel_none {α : Type} (a s : String) :
    ∀ (m : List (String × α)),
      m.find? (fun p => p.1 == a) = none →
      (pyDictDel m s).find? (fun p => p.1 == a) = none := by
  intro m
  induction m with
  | nil => intro _; rfl
  | cons p rest ih =>
    rcases p with ⟨k', v'⟩
    intro h
    have hk : (k' == a) = false := by
      by_contra hc
      have : (k' == a) = true := by
        cases hko : (k' == a) <;> simp_all
      simp [List.find?, this] at h
    have hrest : rest.find? (fun p => p.1 == a) = none := by
      simpa [List.find?, hk] using h
    unfold pyDictDel
    by_cases hb : k' = s
    · simp [hb, hrest]
    · have hbf : (k' == s) = false := beq_eq_false_iff_ne.mpr hb
      simp only [hbf, Bool.false_eq_true, if_false, List.find?, hk]
      simpa using ih hrest

theorem cme_never_subscribed_invariant (a : String) :
    ∀ (ops : List SubOp) (st : CMESubState),
      (∀ ss, SubOp.sub ss ∈ ops → a ∉ ss) →
      a ∉ st.subscriptions →
      st.books.find? (fun p => p.1 == a) = none →
      a ∉ (CMEHandler.runSubOps st ops).subscriptions ∧
        (CMEHandler.runSubOps st ops).books.find? (fun p => p.1 == a) = none := by
  intro ops
  induction ops with
  | nil => intro st _ h1 h2; exact ⟨h1, h2⟩
  | cons op rest ih =>
    intro st hops h1 h2
    rcases op with ss | ss
    · have hass : a ∉ ss := hops ss (by simp)
      have hops' : ∀ ss', SubOp.sub ss' ∈ rest → a ∉ ss' := by
        intro ss' hm; exact hops ss' (by simp [hm])
      refine ih _ hops' ?_ ?_
      · simp only [CMEHandler.subscribe, List.mem_append]
        rintro (h | h)
        · exact h1 h
        · exact hass h
      · simp only [CMEHandler.subscribe]
        rw [find?_foldl_pyDictSet_ne (fun _ => ()) a ss st.books hass]
        exact h2
    · have hops' : ∀ ss', SubOp.sub ss' ∈ rest → a ∉ ss' := by
        intro ss' hm; exact hops ss' (by simp [hm])
      refine ih _ hops' ?_ ?_
      · -- membership in subscriptions is preserved (only removals happen)
        unfold CMEHandler.unsubscribe
        clear ih hops hops'
        induction ss generalizing st with
        | nil => exact h1
        | cons s ss' ihs =>
          simp only [List.foldl_cons]
          apply ihs
          · simp only
            by_cases hms : s ∈ st.subscriptions
            · simp only [hms, if_true]
              exact not_mem_pyListRemove h1
            · simp only [hms, if_false]
              exact h1
          · simp only
            by_cases hbk : (st.books.find? (fun p => p.1 == s)).isSome
            · simp only [hbk, if_true]
              exact find?_pyDictDel_none a s _ h2
            · simp only [hbk, if_false]
              exact h2
      · unfold CMEHandler.unsubscribe
        clear ih hops hops'
        induction ss generalizing st with
        | nil => exact h2
        | cons s ss' ihs =>
          simp only [List.foldl_cons]
          apply ihs
          · simp only
            by_cases hms : s ∈ st.subscriptions
            · simp only [hms, if_true]
              exact not_mem_pyListRemove h1
            · simp only [hms, if_false]
              exact h1
          · simp only
            by_cases hbk : (st.books.find? (fun p => p.1 == s)).isSome
            · simp only [hbk, if_true]
              exact find?_pyDictDel_none a s _ h2
            · simp only [hbk, if_false]
              exact h2

theorem databento_unsubscribe_noop (st : SubState) (a : String)
    (h1 : a ∉ st.subscriptions) :
    DatabentoHandler.unsubscribe st [a] = st := by
  unfold DatabentoHandler.unsubscribe
  simp only [List.foldl_cons, List.foldl_nil, h1, if_false]

theorem cme_unsubscribe_noop (st : CMESubState) (a : String)
    (h1 : a ∉ st.subscriptions)
    (h2 : st.books.find? (fun p => p.1 == a) = none) :
    CMEHandler.unsubscribe st [a] = st := by
  unfold CMEHandler.unsubscribe
  simp only [List.foldl_cons, List.foldl_nil]
  have hbk : (st.books.find? (fun p => p.1 == a)).isSome = false := by
    rw [h2]; rfl
  simp only [h1, if_false, hbk, Bool.false_eq_true]

/- --------------------- C7 --------------------- -/

/-- Claim C7: subscribe is idempotent at the level of the subscription
set (membership in `_subscriptions` is unchanged by a repeated
subscribe with the same symbol list), for both the framed-stream
(Databento; the Bloomberg handler's subscribe/unsubscribe mutate the
same state identically) and the multicast (CME) handlers; and
unsubscribing a symbol that was never subscribed leaves the handler
state exactly unchanged (for CME this includes `_books`, hence the
history hypothesis "a never appeared in any subscribe call"). -/
theorem claim_C7_subscribe_idempotent :
    (∀ (st : SubState) (S : List String) (x : String),
      (x ∈ (DatabentoHandler.subscribe (DatabentoHandler.subscribe st S) S).subscriptions ↔
        x ∈ (DatabentoHandler.subscribe st S).subscriptions)) ∧
    (∀ (st : CMESubState) (S : List String) (x : String),
      (x ∈ (CMEHandler.subscribe (CMEHandler.subscribe st S) S).subscriptions ↔
        x ∈ (CMEHandler.subscribe st S).subscriptions)) ∧
    (∀ (st : SubState) (a : String),
      a ∉ st.subscriptions →
      DatabentoHandler.unsubscribe st [a] = st) ∧
    (∀ (ops : List SubOp) (a : String),
      (∀ ss, SubOp.sub ss ∈ ops → a ∉ ss) →
      CMEHandler.unsubscribe (CMEHandler.runSubOps {} ops) [a] =
        CMEHandler.runSubOps {} ops) := by
  refine ⟨?_, ?_, databento_unsubscribe_noop, ?_⟩
  · intro st S x
    simp only [DatabentoHandler.subscribe, List.mem_append]
    tauto
  · intro st S x
    simp only [CMEHandler.subscribe, List.mem_append]
    tauto
  · intro ops a hops
    have hinv := cme_never_subscribed_invariant a ops {} hops (by simp) rfl
    exact cme_unsubscribe_noop _ a hinv.1 hinv.2

/-- Witness for C7 on concrete subscribe/unsubscribe calls. -/
theorem claim_C7_witness :
    ("ES" ∈ (DatabentoHandler.subscribe
        (DatabentoHandler.subscribe {} ["ES"]) ["ES"]).subscriptions ↔
      "ES" ∈ (DatabentoHandler.subscribe {} ["ES"]).subscriptions) ∧
    (DatabentoHandler.unsubscribe { subscriptions := ["ES"] } ["NQ"] =
      { subscriptions := ["ES"] }) ∧
    (CMEHandler.unsubscribe (CMEHandler.runSubOps {} [SubOp.sub ["ES"]]) ["NQ"] =
      CMEHandler.runSubOps {} [SubOp.sub ["ES"]]) := by
  refine ⟨claim_C7_subscribe_idempotent.1 {} ["ES"] "ES",
    claim_C7_subscribe_idempotent.2.2.1 { subscriptions := ["ES"] } "NQ" (by decide),
    claim_C7_subscribe_idempotent.2.2.2 [SubOp.sub ["ES"]] "NQ" ?_⟩
  intro ss hm
  simp at hm
  subst hm
  decide

/- --------------------- C8 --------------------- -/

/-- Claim C8: on every non-cancellation failure iteration the handler is
marked disconnected, on_error runs exactly when it was supplied, the
loop sleeps the reconnect delay current at the failure (the entry delay
for a connect failure; 1 s for a failure after a successful connect,
since connecting resets the delay), and the delay is then doubled capped
at 60 s; a successful connect resets the delay to 1 s; from a fresh
handler, successive failed connect attempts sleep 1, 2, 4, 8, 16, 32,
then 60 seconds. -/
theorem claim_C8_reconnect_backoff :
    (∀ (hasErr hasSubs : Bool) (s : HandlerState) (ev : IterEvent),
      s.running = true →
      (ev = IterEvent.connectFail ∨ ev = IterEvent.readFail) →
      (SupAction.markDisconnected ∈ (FeedHandler.iterate hasErr hasSubs s ev).2 ∧
        (FeedHandler.iterate hasErr hasSubs s ev).1.connected = false ∧
        ((SupAction.callOnError ∈ (FeedHandler.iterate hasErr hasSubs s ev).2) ↔
          hasErr = true) ∧
        sleepsOf (FeedHandler.iterate hasErr hasSubs s ev).2 =
          [if ev = IterEvent.connectFail then s.reconnect_delay else 1] ∧
        (FeedHandler.iterate hasErr hasSubs s ev).1.reconnect_delay =
          min ((if ev = IterEvent.connectFail then s.reconnect_delay else 1) * 2)
            60 ∧
        (FeedHandler.iterate hasErr hasSubs s ev).1.reconnect_delay ≤ 60)) ∧
    (∀ (hasErr hasSubs : Bool) (s : HandlerState),
      (FeedHandler.iterate hasErr hasSubs s IterEvent.streamEnd).1.reconnect_delay = 1) ∧
    sleepsOf (FeedHandler.run false false
        { running := true, connected := false, reconnect_delay := 1 }
        [IterEvent.connectFail, IterEvent.connectFail, IterEvent.connectFail,
         IterEvent.connectFail, IterEvent.connectFail, IterEvent.connectFail,
         IterEvent.connectFail]).2 = [1, 2, 4, 8, 16, 32, 60] := by
  refine ⟨?_, ?_, by decide⟩
  · intro hasErr hasSubs s ev hrun hfail
    rcases hfail with h | h <;> subst h
    · refine ⟨?_, rfl, ?_, ?_, rfl, ?_⟩
      · simp [FeedHandler.iterate]
      · cases hasErr <;> simp [FeedHandler.iterate, sleepsOf]
      · cases hasErr <;> simp [FeedHandler.iterate, sleepsOf]
      · simp [FeedHandler.iterate]
    · refine ⟨?_, rfl, ?_, ?_, rfl, ?_⟩
      · cases hasSubs <;> cases hasErr <;> simp [FeedHandler.iterate]
      · cases hasSubs <;> cases hasErr <;> simp [FeedHandler.iterate, sleepsOf]
      · cases hasSubs <;> cases hasErr <;> simp [FeedHandler.iterate, sleepsOf]
      · simp [FeedHandler.iterate]
  · intro hasErr hasSubs s
    rfl

/-- Witness for C8 on a connect failure at delay 5 with on_error set. -/
theorem claim_C8_witness :
    SupAction.markDisconnected ∈ (FeedHandler.iterate true false
      { running := true, connected := false, reconnect_delay := 5 }
      IterEvent.connectFail).2 ∧
    sleepsOf (FeedHandler.iterate true false
      { running := true, connected := false, reconnect_delay := 5 }
      IterEvent.connectFail).2 = [5] ∧
    (FeedHandler.iterate true false
      { running := true, connected := false, reconnect_delay := 5 }
      IterEvent.connectFail).1.reconnect_delay = 10 := by
  have h := claim_C8_reconnect_backoff.1 true false
    { running := true, connected := false, reconnect_delay := 5 }
    IterEvent.connectFail rfl (Or.inl rfl)
  refine ⟨h.1, ?_, ?_⟩
  · have := h.2.2.2.1
    simpa using this
  · have := h.2.2.2.2.1
    simpa using this

/- --------------------- C10 --------------------- -/

theorem iterate_trace_head (hasErr hasSubs : Bool) (s : HandlerState)
    (ev : IterEvent) :
    ((FeedHandler.iterate hasErr hasSubs s ev).2).head? =
      some SupAction.connectAttempt := by
  rcases ev <;> cases hasErr <;> cases hasSubs <;> simp [FeedHandler.iterate]

/-- Claim C10: an iteration in which the stream ends normally performs
no backoff sleep, leaves the delay at 1 (not doubled) with the loop
still running, and the supervisor's very next step is a new connect
attempt (the next iteration's trace starts with connectAttempt, with no
sleep in between). -/
theorem claim_C10_stream_end_reconnects_immediately
    (hasErr hasSubs : Bool) (s : HandlerState) (evs : List IterEvent)
    (hrun : s.running = true) :
    (∀ d, SupAction.sleep d ∉
      (FeedHandler.iterate hasErr hasSubs s IterEvent.streamEnd).2) ∧
    (FeedHandler.iterate hasErr hasSubs s IterEvent.streamEnd).1.running = true ∧
    (FeedHandler.iterate hasErr hasSubs s IterEvent.streamEnd).1.reconnect_delay = 1 ∧
    (FeedHandler.run hasErr hasSubs s (IterEvent.streamEnd :: evs)).2 =
      (FeedHandler.iterate hasErr hasSubs s IterEvent.streamEnd).2 ++
        (FeedHandler.run hasErr hasSubs
          (FeedHandler.iterate hasErr hasSubs s IterEvent.streamEnd).1 evs).2 ∧
    (∀ ev' evs', evs = ev' :: evs' →
      ((FeedHandler.run hasErr hasSubs
          (FeedHandler.iterate hasErr hasSubs s IterEvent.streamEnd).1 evs).2).head? =
        some SupAction.connectAttempt) := by
  refine ⟨?_, ?_, rfl, ?_, ?_⟩
  · intro d
    cases hasSubs <;> simp [FeedHandler.iterate]
  · simpa [FeedHandler.iterate] using hrun
  · simp only [FeedHandler.run, hrun, if_true]
  · intro ev' evs' hevs
    subst hevs
    have hrun' : (FeedHandler.iterate hasErr hasSubs s IterEvent.streamEnd).1.running = true := by
      simpa [FeedHandler.iterate] using hrun
    simp only [FeedHandler.run, hrun', if_true]
    rw [List.head?_append]
    rw [iterate_trace_head]
    rfl

/-- Witness for C10 at a concrete running state followed by one more
failing iteration. -/
theorem claim_C10_witness :
    (∀ d, SupAction.sleep d ∉
      (FeedHandler.iterate false false
        { running := true, connected := false, reconnect_delay := 7 }
        IterEvent.streamEnd).2) ∧
    ((FeedHandler.run false false
        (FeedHandler.iterate false false
          { running := true, connected := false, reconnect_delay := 7 }
          IterEvent.streamEnd).1 [IterEvent.connectFail]).2).head? =
      some SupAction.connectAttempt := by
  have h := claim_C10_stream_end_reconnects_immediately false false
    { running := true, connected := false, reconnect_delay := 7 }
    [IterEvent.connectFail] rfl
  exact ⟨h.1, h.2.2.2.2 IterEvent.connectFail [] rfl⟩

/- --------------------- C6 helper lemmas --------------------- -/

theorem RingBuffer.size_lt (rb : RingBuffer)
    (hw : rb.write_idx < rb.capacity) (hr : rb.read_idx < rb.capacity) :
    rb.size < rb.capacity := by
  rw [RingBuffer.size_spec rb hw hr]
  split_ifs <;> omega

theorem RingBuffer.size_zero_iff (rb : RingBuffer)
    (hw : rb.write_idx < rb.capacity) (hr : rb.read_idx < rb.capacity) :
    rb.size = 0 ↔ rb.read_idx = rb.write_idx := by
  rw [RingBuffer.size_spec rb hw hr]
  split_ifs <;> omega

theorem RingBuffer.write_slot (rb : RingBuffer)
    (hw : rb.write_idx < rb.capacity) (hr : rb.read_idx < rb.capacity) :
    (rb.read_idx + rb.size) % rb.capacity = rb.write_idx := by
  rw [RingBuffer.size_spec rb hw hr]
  by_cases h : rb.read_idx ≤ rb.write_idx
  · rw [if_pos h]
    have he : rb.read_idx + (rb.write_idx - rb.read_idx) = rb.write_idx := by
      omega
    rw [he, Nat.mod_eq_of_lt hw]
  · rw [if_neg h]
    have he : rb.read_idx + (rb.capacity + rb.write_idx - rb.read_idx) =
        rb.capacity + rb.write_idx := by omega
    rw [he, Nat.add_mod_left, Nat.mod_eq_of_lt hw]

theorem mod_add_inj {cap i j r : Nat} (hi : i < cap) (hj : j < cap)
    (h : (r + i) % cap = (r + j) % cap) : i = j := by
  have hm : Nat.ModEq cap (r + i) (r + j) := h
  have hm2 : Nat.ModEq cap i j := Nat.ModEq.add_left_cancel' r hm
  have h3 : i % cap = j % cap := hm2
  rwa [Nat.mod_eq_of_lt hi, Nat.mod_eq_of_lt hj] at h3

theorem RingBuffer.push_WF (rb : RingBuffer) (t : Tick) (hwf : rb.WF) :
    ((rb.push t).1).WF ∧
    ((rb.push t).2 = false →
      (rb.push t).1 = rb ∧ rb.size = rb.capacity - 1) ∧
    ((rb.push t).2 = true →
      (rb.push t).1.size = rb.size + 1 ∧
      (rb.push t).1.capacity = rb.capacity) := by
  obtain ⟨⟨k, hk⟩, hw, hr, hlen, hocc⟩ := hwf
  have hpush := RingBuffer.push_eq rb t hk
  have hcpos : 0 < rb.capacity := by omega
  by_cases hcond : (rb.write_idx + 1) % rb.capacity = rb.read_idx
  · rw [if_pos hcond] at hpush
    have hfull : rb.size = rb.capacity - 1 := by
      rcases Nat.lt_or_ge (rb.write_idx + 1) rb.capacity with hlt | hge
      · rw [Nat.mod_eq_of_lt hlt] at hcond
        rw [RingBuffer.size_spec rb hw hr]
        split_ifs <;> omega
      · have hcap1 : rb.write_idx + 1 = rb.capacity := by omega
        rw [hcap1, Nat.mod_self] at hcond
        rw [RingBuffer.size_spec rb hw hr]
        split_ifs <;> omega
    rw [hpush]
    exact ⟨⟨⟨k, hk⟩, hw, hr, hlen, hocc⟩,
      ⟨fun _ => ⟨rfl, hfull⟩, fun hc => Bool.noConfusion hc⟩⟩
  · rw [if_neg hcond] at hpush
    set s' : RingBuffer :=
      { rb with
          buffer := rb.buffer.set rb.write_idx (some t)
          write_idx := (rb.write_idx + 1) % rb.capacity } with hs'
    have hw' : s'.write_idx < s'.capacity := Nat.mod_lt _ hcpos
    have hr' : s'.read_idx < s'.capacity := hr
    have hsize : s'.size = rb.size + 1 := by
      rcases Nat.lt_or_ge (rb.write_idx + 1) rb.capacity with hlt | hge
      · have hwv : s'.write_idx = rb.write_idx + 1 := Nat.mod_eq_of_lt hlt
        rw [Nat.mod_eq_of_lt hlt] at hcond
        rw [RingBuffer.size_spec s' hw' hr', RingBuffer.size_spec rb hw hr]
        simp only [hs']
        rw [Nat.mod_eq_of_lt hlt]
        split_ifs <;> omega
      · have hcap1 : rb.write_idx + 1 = rb.capacity := by omega
        have hwv : (rb.write_idx + 1) % rb.capacity = 0 := by
          rw [hcap1, Nat.mod_self]
        rw [hwv] at hcond
        rw [RingBuffer.size_spec s' hw' hr', RingBuffer.size_spec rb hw hr]
        simp only [hs']
        rw [hwv]
        split_ifs <;> omega
    have hocc' : ∀ i, i < s'.size →
        (s'.buffer.getD ((s'.read_idx + i) % s'.capacity) none).isSome = true := by
      intro i hi
      rw [hsize] at hi
      have hsz : rb.size < rb.capacity := RingBuffer.size_lt rb hw hr
      by_cases hie : i = rb.size
      · have hidx : (s'.read_idx + i) % s'.capacity = rb.write_idx := by
          simp only [hs', hie]
          exact RingBuffer.write_slot rb hw hr
        rw [hidx]
        simp only [hs']
        have hwl : rb.write_idx < rb.buffer.length := by omega
        show (((rb.buffer.set rb.write_idx (some t)).get?
          rb.write_idx).getD none).isSome = true
        rw [List.get?_set_eq_of_lt (some t) hwl]
        rfl
      · have hilt : i < rb.size := by omega
        have hidx_ne : (rb.read_idx + i) % rb.capacity ≠ rb.write_idx := by
          intro hcon
          have hws := RingBuffer.write_slot rb hw hr
          have : i = rb.size :=
            mod_add_inj (by omega) hsz (by rw [hcon, hws])
          exact hie this
        simp only [hs']
        show (((rb.buffer.set rb.write_idx (some t)).get?
          ((rb.read_idx + i) % rb.capacity)).getD none).isSome = true
        rw [List.get?_set_ne (some t) rb.buffer (fun h => hidx_ne h.symm)]
        exact hocc i hilt
    rw [hpush]
    exact ⟨⟨⟨k, hk⟩, hw', hr', by simp [hs', hlen], hocc'⟩,
      ⟨fun hc => Bool.noConfusion hc, fun _ => ⟨hsize, rfl⟩⟩⟩

theorem RingBuffer.pop_WF (rb : RingBuffer) (hwf : rb.WF) :
    ((rb.pop).1).WF ∧
    (rb.read_idx = rb.write_idx → rb.pop = (rb, none)) ∧
    (rb.read_idx ≠ rb.write_idx →
      ((rb.pop).2).isSome = true ∧
      (rb.pop).1.size + 1 = rb.size ∧
      (rb.pop).1.capacity = rb.capacity) := by
  obtain ⟨⟨k, hk⟩, hw, hr, hlen, hocc⟩ := hwf
  have hpop := RingBuffer.pop_eq rb hk
  have hcpos : 0 < rb.capacity := by omega
  by_cases hcond : rb.read_idx = rb.write_idx
  · rw [if_pos hcond] at hpop
    rw [hpop]
    exact ⟨⟨⟨k, hk⟩, hw, hr, hlen, hocc⟩,
      ⟨fun _ => rfl, fun hne => absurd hcond hne⟩⟩
  · rw [if_neg hcond] at hpop
    have hsz : rb.size < rb.capacity := RingBuffer.size_lt rb hw hr
    have hszpos : 0 < rb.size := by
      rcases Nat.eq_zero_or_pos rb.size with h0 | h0
      · exact absurd ((RingBuffer.size_zero_iff rb hw hr).mp h0) hcond
      · exact h0
    have hsome : (rb.buffer.getD rb.read_idx none).isSome = true := by
      have := hocc 0 hszpos
      rwa [Nat.add_zero, Nat.mod_eq_of_lt hr] at this
    set s' : RingBuffer :=
      { rb with
          buffer := rb.buffer.set rb.read_idx none
          read_idx := (rb.read_idx + 1) % rb.capacity } with hs'
    have hw' : s'.write_idx < s'.capacity := hw
    have hr' : s'.read_idx < s'.capacity := Nat.mod_lt _ hcpos
    have hsize : s'.size + 1 = rb.size := by
      rcases Nat.lt_or_ge (rb.read_idx + 1) rb.capacity with hlt | hge
      · rw [RingBuffer.size_spec s' hw' hr', RingBuffer.size_spec rb hw hr]
        simp only [hs']
        rw [Nat.mod_eq_of_lt hlt]
        split_ifs <;> omega
      · have hcap1 : rb.read_idx + 1 = rb.capacity := by omega
        have hrv : (rb.read_idx + 1) % rb.capacity = 0 := by
          rw [hcap1, Nat.mod_self]
        rw [RingBuffer.size_spec s' hw' hr', RingBuffer.size_spec rb hw hr]
        simp only [hs']
        rw [hrv]
        split_ifs <;> omega
    have hocc' : ∀ i, i < s'.size →
        (s'.buffer.getD ((s'.read_idx + i) % s'.capacity) none).isSome = true := by
      intro i hi
      have hi1 : i + 1 < rb.size := by omega
      have hidx : (s'.read_idx + i) % s'.capacity =
          (rb.read_idx + (i + 1)) % rb.capacity := by
        simp only [hs']
        rw [Nat.mod_add_mod]
        congr 1
        omega
      have hne : (rb.read_idx + (i + 1)) % rb.capacity ≠ rb.read_idx := by
        intro hcon
        have h0 : (rb.read_idx + (i + 1)) % rb.capacity =
            (rb.read_idx + 0) % rb.capacity := by
          rw [hcon, Nat.add_zero, Nat.mod_eq_of_lt hr]
        have := mod_add_inj (by omega) (by omega) h0
        omega
      rw [hidx]
      simp only [hs']
      show (((rb.buffer.set rb.read_idx none).get?
        ((rb.read_idx + (i + 1)) % rb.capacity)).getD none).isSome = true
      rw [List.get?_set_ne none rb.buffer (fun h => hne h.symm)]
      exact hocc (i + 1) hi1
    rw [hpop]
    exact ⟨⟨⟨k, hk⟩, hw', hr', by simp [hs', hlen], hocc'⟩,
      ⟨fun he => absurd he hcond, fun _ => ⟨hsome, hsize, rfl⟩⟩⟩

theorem RingBuffer.popLoop_WF :
    ∀ (count : Nat) (rb : RingBuffer), rb.WF → count ≤ rb.size →
      ((rb.popLoop count).1).WF ∧
      (rb.popLoop count).2.length = count ∧
      (rb.popLoop count).1.size + count = rb.size ∧
      (rb.popLoop count).1.capacity = rb.capacity := by
  intro count
  induction count with
  | zero =>
    intro rb hwf _
    exact ⟨hwf, rfl, rfl, rfl⟩
  | succ n ih =>
    intro rb hwf hle
    have hwr : rb.write_idx < rb.capacity := hwf.2.1
    have hrr : rb.read_idx < rb.capacity := hwf.2.2.1
    have hne : rb.read_idx ≠ rb.write_idx := by
      intro he
      have h0 : rb.size = 0 := (RingBuffer.size_zero_iff rb hwr hrr).mpr he
      omega
    obtain ⟨hwf', _, hpopped⟩ := RingBuffer.pop_WF rb hwf
    obtain ⟨hsome, hsz, hcap⟩ := hpopped hne
    rcases hp : rb.pop with ⟨rb', t?⟩
    rw [hp] at hwf' hsome hsz hcap
    simp only at hwf' hsome hsz hcap
    rcases t? with _ | t
    · cases hsome
    · have hle' : n ≤ rb'.size := by omega
      have hres := ih rb' hwf' hle'
      simp only [RingBuffer.popLoop, hp]
      rcases hl : rb'.popLoop n with ⟨rb'', rest⟩
      rw [hl] at hres
      simp only at hres ⊢
      obtain ⟨h1, h2, h3, h4⟩ := hres
      exact ⟨h1, by simp [h2], by omega, by rw [h4, hcap]⟩

theorem RingBuffer.popBatch_WF (rb : RingBuffer) (max_size : Nat)
    (hwf : rb.WF) :
    ((rb.popBatch max_size).1).WF ∧
    (rb.popBatch max_size).2.length = min max_size rb.size ∧
    (rb.popBatch max_size).1.size + (rb.popBatch max_size).2.length = rb.size ∧
    (rb.popBatch max_size).1.capacity = rb.capacity := by
  unfold RingBuffer.popBatch
  have h := RingBuffer.popLoop_WF (min max_size rb.size) rb hwf
    (Nat.min_le_right _ _)
  exact ⟨h.1, h.2.1, by rw [h.2.1]; exact h.2.2.1, h.2.2.2⟩

theorem TickBuffer.flush_WF (tb : TickBuffer) (hwf : tb.buffer.WF) :
    (tb.flush.1.buffer).WF ∧
    tb.flush.1.batch_size = tb.batch_size ∧
    tb.flush.1.stats.ticks_received = tb.stats.ticks_received ∧
    tb.flush.1.stats.ticks_dropped = tb.stats.ticks_dropped ∧
    tb.flush.1.stats.ticks_processed =
      tb.stats.ticks_processed + tb.flush.2.length ∧
    tb.flush.1.buffer.size + tb.flush.2.length = tb.buffer.size := by
  have h := RingBuffer.popBatch_WF tb.buffer tb.batch_size hwf
  rcases hpb : tb.buffer.popBatch tb.batch_size with ⟨rb', batch⟩
  rw [hpb] at h
  simp only at h
  obtain ⟨h1, h2, h3, h4⟩ := h
  unfold TickBuffer.flush
  simp only [hpb]
  rcases batch with _ | ⟨b, bs⟩
  · rw [if_pos (by rfl)]
    exact ⟨h1, rfl, rfl, rfl, by simp, by simpa using h3⟩
  · rw [if_neg (by simp)]
    exact ⟨h1, rfl, rfl, rfl, rfl, h3⟩

theorem TickBuffer.push_spec (tb : TickBuffer) (t : Tick)
    (hwf : tb.buffer.WF) :
    ((tb.push t).1.buffer).WF ∧
    (tb.push t).1.batch_size = tb.batch_size ∧
    (tb.push t).1.stats.ticks_received = tb.stats.ticks_received + 1 ∧
    ((tb.push t).2.1 = false ↔ (tb.buffer.push t).2 = false) ∧
    ((tb.push t).2.1 = false →
      (tb.push t).1.stats.ticks_dropped = tb.stats.ticks_dropped + 1 ∧
      (tb.push t).1.stats.ticks_processed = tb.stats.ticks_processed ∧
      (tb.push t).1.buffer.size = tb.buffer.size) ∧
    ((tb.push t).2.1 = true →
      (tb.push t).1.stats.ticks_dropped = tb.stats.ticks_dropped ∧
      (tb.push t).1.stats.ticks_processed + (tb.push t).1.buffer.size =
        tb.stats.ticks_processed + tb.buffer.size + 1) := by
  have hp := RingBuffer.push_WF tb.buffer t hwf
  rcases hpush : tb.buffer.push t with ⟨rb', ok⟩
  rw [hpush] at hp
  simp only at hp
  obtain ⟨hwf', hfail, hsucc⟩ := hp
  unfold TickBuffer.push
  simp only [hpush]
  rcases ok with _ | _
  · -- ring rejected: state keeps the old buffer, dropped increments
    obtain ⟨hst, _⟩ := hfail rfl
    rw [if_pos (show (!false) = true from rfl)]
    exact ⟨hwf, rfl, rfl, by simp, fun _ => ⟨rfl, rfl, rfl⟩,
      fun hc => Bool.noConfusion hc⟩
  · -- accepted: buffer becomes rb' (size + 1), maybe immediate flush
    obtain ⟨hsz, hcap⟩ := hsucc rfl
    rw [if_neg (show ¬ ((!true) = true) by simp)]
    by_cases hflush : tb.batch_size ≤ rb'.size
    · rw [if_pos hflush]
      have hf := TickBuffer.flush_WF
        { batch_size := tb.batch_size
          buffer := rb'
          stats := { tb.stats with
            ticks_received := tb.stats.ticks_received + 1 } }
        hwf'
      obtain ⟨f1, f2, f3, f4, f5, f6⟩ := hf
      dsimp only at f2 f3 f4 f5 f6
      dsimp only
      refine ⟨f1, f2, f3, by simp, fun hc => Bool.noConfusion hc, fun _ => ⟨f4, ?_⟩⟩
      omega
    · rw [if_neg hflush]
      dsimp only
      exact ⟨hwf', rfl, rfl, by simp, fun hc => Bool.noConfusion hc,
        fun _ => ⟨rfl, by omega⟩⟩

theorem RingBuffer.init_size (n : Nat) : (RingBuffer.init n).size = 0 := by
  simp [RingBuffer.size, RingBuffer.init]

theorem RingBuffer.init_WF (n : Nat) : (RingBuffer.init n).WF := by
  have hpos : 0 < (RingBuffer.init n).capacity := by
    rw [RingBuffer.init_capacity]
    exact Nat.pos_pow_of_pos _ (by omega)
  refine ⟨⟨bitLength (n - 1), RingBuffer.init_capacity n⟩, hpos, hpos,
    RingBuffer.init_buffer_length n, ?_⟩
  intro i hi
  rw [RingBuffer.init_size] at hi
  omega

theorem TickBuffer.run_WF :
    ∀ (ops : List BufOp) (tb : TickBuffer),
      tb.buffer.WF →
      tb.stats.ticks_received =
        tb.stats.ticks_processed + tb.stats.ticks_dropped + tb.buffer.size →
      (tb.run ops).buffer.WF ∧
        (tb.run ops).stats.ticks_received =
          (tb.run ops).stats.ticks_processed +
            (tb.run ops).stats.ticks_dropped + (tb.run ops).buffer.size := by
  intro ops
  induction ops with
  | nil => intro tb hwf hacc; exact ⟨hwf, hacc⟩
  | cons op rest ih =>
    intro tb hwf hacc
    rcases op with t | _
    · -- push step
      have hp := TickBuffer.push_spec tb t hwf
      obtain ⟨p1, _, p3, _, pfail, psucc⟩ := hp
      have hstep : tb.step (BufOp.push t) = (tb.push t).1 := rfl
      show ((tb.step (BufOp.push t)).run rest).buffer.WF ∧ _
      rw [hstep]
      apply ih
      · exact p1
      · rcases hres : (tb.push t).2.1 with _ | _
        · obtain ⟨d1, d2, d3⟩ := pfail hres
          omega
        · obtain ⟨d1, d2⟩ := psucc hres
          omega
    · -- flush step
      have hf := TickBuffer.flush_WF tb hwf
      obtain ⟨f1, _, f3, f4, f5, f6⟩ := hf
      have hstep : tb.step BufOp.flush = tb.flush.1 := rfl
      show ((tb.step BufOp.flush).run rest).buffer.WF ∧ _
      rw [hstep]
      apply ih
      · exact f1
      · omega

/- --------------------- C6 --------------------- -/

/-- Claim C6: at every observation point between batcher operations
(any sequence of pushes and flushes from a fresh TickBuffer),
received = processed + dropped + (ticks in the ring); moreover at any
such reachable state a push increments received, returns false exactly
when the ring rejects (then incrementing dropped), and a flush
increments processed by the length of the batch it delivers. -/
theorem claim_C6_batcher_accounting (bs cap : Nat) (ops : List BufOp) :
    (((TickBuffer.init bs cap).run ops).stats.ticks_received =
      ((TickBuffer.init bs cap).run ops).stats.ticks_processed +
        ((TickBuffer.init bs cap).run ops).stats.ticks_dropped +
        ((TickBuffer.init bs cap).run ops).buffer.size) ∧
    (∀ t : Tick,
      ((((TickBuffer.init bs cap).run ops).push t).1.stats.ticks_received =
        ((TickBuffer.init bs cap).run ops).stats.ticks_received + 1) ∧
      (((((TickBuffer.init bs cap).run ops).push t).2.1 = false) ↔
        ((((TickBuffer.init bs cap).run ops).buffer.push t).2 = false)) ∧
      (((((TickBuffer.init bs cap).run ops).push t).2.1 = false) →
        (((TickBuffer.init bs cap).run ops).push t).1.stats.ticks_dropped =
          ((TickBuffer.init bs cap).run ops).stats.ticks_dropped + 1)) ∧
    (((TickBuffer.init bs cap).run ops).flush.1.stats.ticks_processed =
      ((TickBuffer.init bs cap).run ops).stats.ticks_processed +
        ((TickBuffer.init bs cap).run ops).flush.2.length) := by
  have hinit : (TickBuffer.init bs cap).buffer.WF := RingBuffer.init_WF cap
  have hacc0 : (TickBuffer.init bs cap).stats.ticks_received =
      (TickBuffer.init bs cap).stats.ticks_processed +
        (TickBuffer.init bs cap).stats.ticks_dropped +
        (TickBuffer.init bs cap).buffer.size := by
    show (0 : Nat) = 0 + 0 + (RingBuffer.init cap).size
    rw [RingBuffer.init_size]
  obtain ⟨hwf, hacc⟩ := TickBuffer.run_WF ops (TickBuffer.init bs cap) hinit hacc0
  refine ⟨hacc, ?_, ?_⟩
  · intro t
    have hp := TickBuffer.push_spec ((TickBuffer.init bs cap).run ops) t hwf
    exact ⟨hp.2.2.1, hp.2.2.2.1, fun hres => (hp.2.2.2.2.1 hres).1⟩
  · have hf := TickBuffer.flush_WF ((TickBuffer.init bs cap).run ops) hwf
    exact hf.2.2.2.2.1

/-- Witness for C6: batch_size 10, ring capacity 2 (one usable slot);
two pushes leave received 2 = processed 0 + dropped 1 + in-ring 1, and a
further push is rejected by the ring and increments dropped. -/
theorem claim_C6_witness :
    (((TickBuffer.init 10 2).run
        [BufOp.push { timestamp_ns := 0, symbol := "ES",
                      tick_type := TickType.TRADE, trade_price := some 1 },
         BufOp.push { timestamp_ns := 1, symbol := "ES",
                      tick_type := TickType.TRADE, trade_price := some 2 }]).stats.ticks_received =
      ((TickBuffer.init 10 2).run
        [BufOp.push { timestamp_ns := 0, symbol := "ES",
                      tick_type := TickType.TRADE, trade_price := some 1 },
         BufOp.push { timestamp_ns := 1, symbol := "ES",
                      tick_type := TickType.TRADE, trade_price := some 2 }]).stats.ticks_processed +
        ((TickBuffer.init 10 2).run
          [BufOp.push { timestamp_ns := 0, symbol := "ES",
                        tick_type := TickType.TRADE, trade_price := some 1 },
           BufOp.push { timestamp_ns := 1, symbol := "ES",
                        tick_type := TickType.TRADE, trade_price := some 2 }]).stats.ticks_dropped +
        ((TickBuffer.init 10 2).run
          [BufOp.push { timestamp_ns := 0, symbol := "ES",
                        tick_type := TickType.TRADE, trade_price := some 1 },
           BufOp.push { timestamp_ns := 1, symbol := "ES",
                        tick_type := TickType.TRADE, trade_price := some 2 }]).buffer.size) ∧
    ((((TickBuffer.init 10 2).run
        [BufOp.push { timestamp_ns := 0, symbol := "ES",
                      tick_type := TickType.TRADE, trade_price := some 1 },
         BufOp.push { timestamp_ns := 1, symbol := "ES",
                      tick_type := TickType.TRADE, trade_price := some 2 }]).push
        { timestamp_ns := 2, symbol := "ES",
          tick_type := TickType.TRADE, trade_price := some 3 }).1.stats.ticks_dropped =
      ((TickBuffer.init 10 2).run
        [BufOp.push { timestamp_ns := 0, symbol := "ES",
                      tick_type := TickType.TRADE, trade_price := some 1 },
         BufOp.push { timestamp_ns := 1, symbol := "ES",
                      tick_type := TickType.TRADE, trade_price := some 2 }]).stats.ticks_dropped + 1) := by
  have h := claim_C6_batcher_accounting 10 2
    [BufOp.push { timestamp_ns := 0, symbol := "ES",
                  tick_type := TickType.TRADE, trade_price := some 1 },
     BufOp.push { timestamp_ns := 1, symbol := "ES",
                  tick_type := TickType.TRADE, trade_price := some 2 }]
  exact ⟨h.1,
    (h.2.1 { timestamp_ns := 2, symbol := "ES",
             tick_type := TickType.TRADE, trade_price := some 3 }).2.2 (by decide)⟩
